import Mathlib

/-!
Verification of the qSim transformation engine: a shallow embedding of the
gate function library, the gap-filling/tensor evaluator, the CPU execution
backend, the quantum register transform/measure layer and the block
instruction decomposition, together with theorems about the behaviour of
these components.

State values are exact complex numbers (`ℂ`); the C `double` arithmetic of
the source is modelled by exact real arithmetic.  Indices, sizes and counts
are natural numbers, with `ℤ` used where the source relies on signed values
(form selectors, index ranges, measurement sub-register arguments).
-/

set_option maxHeartbeats 1600000

/-- QASM transformation function types (enum `QASM_F_TYPE` from qSim_qasm.h),
including the null value. -/
inductive QASM_F_TYPE where
  | NULL
  | Q1_I
  | Q1_H
  | Q1_X
  | Q1_Y
  | Q1_Z
  | Q1_SX
  | Q1_PS
  | Q1_T
  | Q1_S
  | Q1_Rx
  | Q1_Ry
  | Q1_Rz
  | Q2_CU
  | Q2_CX
  | Q2_CY
  | Q2_CZ
  | QN_MCSLRU
  | Q3_CCX
  deriving DecidableEq, Repr

/-- Macro `QASM_F_TYPE_IS_GATE_1QUBIT`: type lies in the 1-qubit gate range. -/
def QASM_F_TYPE_IS_GATE_1QUBIT : QASM_F_TYPE → Bool
  | .Q1_I | .Q1_H | .Q1_X | .Q1_Y | .Q1_Z | .Q1_SX
  | .Q1_PS | .Q1_T | .Q1_S | .Q1_Rx | .Q1_Ry | .Q1_Rz => true
  | _ => false

/-- Macro `QASM_F_TYPE_IS_GATE_2QUBIT`: type lies in the 2-qubit gate range. -/
def QASM_F_TYPE_IS_GATE_2QUBIT : QASM_F_TYPE → Bool
  | .Q2_CU | .Q2_CX | .Q2_CY | .Q2_CZ => true
  | _ => false

/-- Macro `QASM_F_TYPE_IS_GATE_NQUBIT`: type lies in the n-qubit gate range. -/
def QASM_F_TYPE_IS_GATE_NQUBIT : QASM_F_TYPE → Bool
  | .QN_MCSLRU | .Q3_CCX => true
  | _ => false

/-- Device function argument structure (`qSim_qreg_function_args_cuda`):
an argument count and the (last) real argument value. -/
structure QDEV_F_ARGS_TYPE where
  argc : ℕ
  argv : ℝ

/-- The all-zero argument structure (`QDEV_F_ARGS_TYPE()` default value). -/
def QDEV_F_ARGS_NULL : QDEV_F_ARGS_TYPE := ⟨0, 0⟩

/-- Extract the phase argument used by the parameterised 1-qubit gates:
the stored value when `argc > 0`, else `0.0` (with a logged warning in the
source). -/
def qdev_f_args_phi (a : QDEV_F_ARGS_TYPE) : ℝ := if 0 < a.argc then a.argv else 0

/-- `f_dev_q1_i`: identity entry, valid for n×n identities as used by the
gap fillers. -/
noncomputable def f_dev_q1_i (i j : ℕ) (_a : QDEV_F_ARGS_TYPE) : ℂ :=
  if i = j then 1 else 0

/-- `f_dev_q1_h`: Hadamard entry. -/
noncomputable def f_dev_q1_h (i j : ℕ) (_a : QDEV_F_ARGS_TYPE) : ℂ :=
  (if j < 1 then (1 : ℂ) else (((-1 : ℝ) ^ i : ℝ) : ℂ)) / ((Real.sqrt 2 : ℝ) : ℂ)

/-- `f_dev_q1_x`: Pauli-X entry. -/
noncomputable def f_dev_q1_x (i j : ℕ) (_a : QDEV_F_ARGS_TYPE) : ℂ :=
  if j = i then 0 else 1

/-- `f_dev_q1_y`: Pauli-Y entry. -/
noncomputable def f_dev_q1_y (i j : ℕ) (_a : QDEV_F_ARGS_TYPE) : ℂ :=
  if j = i then 0 else (((-1 : ℝ) ^ (i + 1) : ℝ) : ℂ) * Complex.I

/-- `f_dev_q1_z`: Pauli-Z entry. -/
noncomputable def f_dev_q1_z (i j : ℕ) (_a : QDEV_F_ARGS_TYPE) : ℂ :=
  if j = i then (((-1 : ℝ) ^ i : ℝ) : ℂ) else 0

/-- `f_dev_q1_sx`: square-root-of-X entry. -/
noncomputable def f_dev_q1_sx (i j : ℕ) (_a : QDEV_F_ARGS_TYPE) : ℂ :=
  (if j = i then 1 + Complex.I else 1 - Complex.I) / 2

/-- `f_dev_q1_ps`: phase-shift entry with angle argument. -/
noncomputable def f_dev_q1_ps (i j : ℕ) (a : QDEV_F_ARGS_TYPE) : ℂ :=
  let phi := qdev_f_args_phi a
  if i = j then
    (if i = 0 then 1 else ((Real.cos phi : ℝ) : ℂ) + ((Real.sin phi : ℝ) : ℂ) * Complex.I)
  else 0

/-- `f_dev_q1_s`: S gate entry (phase π/2). -/
noncomputable def f_dev_q1_s (i j : ℕ) (_a : QDEV_F_ARGS_TYPE) : ℂ :=
  let phi := Real.pi / 2
  if j = i then
    (if i = 0 then 1 else ((Real.cos phi : ℝ) : ℂ) + ((Real.sin phi : ℝ) : ℂ) * Complex.I)
  else 0

/-- `f_dev_q1_t`: T gate entry (phase π/4). -/
noncomputable def f_dev_q1_t (i j : ℕ) (_a : QDEV_F_ARGS_TYPE) : ℂ :=
  let phi := Real.pi / 4
  if j = i then
    (if i = 0 then 1 else ((Real.cos phi : ℝ) : ℂ) + ((Real.sin phi : ℝ) : ℂ) * Complex.I)
  else 0

/-- `f_dev_q1_rx`: X-rotation entry with angle argument. -/
noncomputable def f_dev_q1_rx (i j : ℕ) (a : QDEV_F_ARGS_TYPE) : ℂ :=
  let phi := qdev_f_args_phi a
  if j = i then ((Real.cos (phi / 2) : ℝ) : ℂ)
  else ((-Real.sin (phi / 2) : ℝ) : ℂ) * Complex.I

/-- `f_dev_q1_ry`: Y-rotation entry with angle argument. -/
noncomputable def f_dev_q1_ry (i j : ℕ) (a : QDEV_F_ARGS_TYPE) : ℂ :=
  let phi := qdev_f_args_phi a
  if j = i then ((Real.cos (phi / 2) : ℝ) : ℂ)
  else (((-1 : ℝ) ^ (i + 1) * Real.sin (phi / 2) : ℝ) : ℂ)

/-- `f_dev_q1_rz`: Z-rotation entry with angle argument. -/
noncomputable def f_dev_q1_rz (i j : ℕ) (a : QDEV_F_ARGS_TYPE) : ℂ :=
  let phi := qdev_f_args_phi a
  if j = i then
    ((Real.cos ((-1 : ℝ) ^ (i + 1) * phi / 2) : ℝ) : ℂ) +
      ((Real.sin ((-1 : ℝ) ^ (i + 1) * phi / 2) : ℝ) : ℂ) * Complex.I
  else 0

/-- `get_functionRefByFtype_gates_1qubit`: the static pointer table for the
1-qubit gates, in enum order.  Out-of-range lookups yield the constant zero
function (the source logs an error and returns a null pointer there, which
the guarded call sites never invoke). -/
noncomputable def get_functionRefByFtype_gates_1qubit (ft : QASM_F_TYPE) :
    ℕ → ℕ → QDEV_F_ARGS_TYPE → ℂ :=
  match ft with
  | .Q1_I => f_dev_q1_i
  | .Q1_H => f_dev_q1_h
  | .Q1_X => f_dev_q1_x
  | .Q1_Y => f_dev_q1_y
  | .Q1_Z => f_dev_q1_z
  | .Q1_SX => f_dev_q1_sx
  | .Q1_PS => f_dev_q1_ps
  | .Q1_T => f_dev_q1_t
  | .Q1_S => f_dev_q1_s
  | .Q1_Rx => f_dev_q1_rx
  | .Q1_Ry => f_dev_q1_ry
  | .Q1_Rz => f_dev_q1_rz
  | _ => fun _ _ _ => 0

/-- `f_dev_q2_cu`: generic controlled-U entry.  `fform = 0` is the direct
form (control on the most significant qubit), anything else selects the
inverse form branch, as in the source `if`. -/
noncomputable def f_dev_q2_cu (i j : ℕ) (fform : ℤ) (fu_type : QASM_F_TYPE)
    (fu_args : QDEV_F_ARGS_TYPE) : ℂ :=
  if fform = 0 then
    if 1 < i ∧ 1 < j then get_functionRefByFtype_gates_1qubit fu_type (i % 2) (j % 2) fu_args
    else if i = j ∧ i < 2 then 1
    else 0
  else
    if i % 2 = 1 ∧ j % 2 = 1 ∧ (i = j ∨ i = j + 2 ∨ j = i + 2) then
      get_functionRefByFtype_gates_1qubit fu_type (i / 2) (j / 2) fu_args
    else if i = j ∧ (j = 0 ∨ j = 2) then 1
    else 0

/-- `f_dev_q2_cx`: controlled-X entry, delegating to the controlled-U
function with the X gate (the source passes a NULL argument pointer,
modelled by the all-zero argument structure the X entry ignores). -/
noncomputable def f_dev_q2_cx (i j : ℕ) (fform : ℤ) (_fu_type : QASM_F_TYPE)
    (_fu_args : QDEV_F_ARGS_TYPE) : ℂ :=
  f_dev_q2_cu i j fform .Q1_X QDEV_F_ARGS_NULL

/-- `f_dev_q2_cy`: controlled-Y entry via controlled-U. -/
noncomputable def f_dev_q2_cy (i j : ℕ) (fform : ℤ) (_fu_type : QASM_F_TYPE)
    (_fu_args : QDEV_F_ARGS_TYPE) : ℂ :=
  f_dev_q2_cu i j fform .Q1_Y QDEV_F_ARGS_NULL

/-- `f_dev_q2_cz`: controlled-Z entry via controlled-U. -/
noncomputable def f_dev_q2_cz (i j : ℕ) (fform : ℤ) (_fu_type : QASM_F_TYPE)
    (_fu_args : QDEV_F_ARGS_TYPE) : ℂ :=
  f_dev_q2_cu i j fform .Q1_Z QDEV_F_ARGS_NULL

/-- `get_functionRefByFtype_gates_2qubit`: static pointer table for the
2-qubit gates, in enum order. -/
noncomputable def get_functionRefByFtype_gates_2qubit (ft : QASM_F_TYPE) :
    ℕ → ℕ → ℤ → QASM_F_TYPE → QDEV_F_ARGS_TYPE → ℂ :=
  match ft with
  | .Q2_CU => f_dev_q2_cu
  | .Q2_CX => f_dev_q2_cx
  | .Q2_CY => f_dev_q2_cy
  | .Q2_CZ => f_dev_q2_cz
  | _ => fun _ _ _ _ _ => 0

/-- `(int)powf(2, g)` for a possibly negative signed exponent: `2^g` when
`g ≥ 0`, else the float value below one truncates to `0`. -/
def pow2i (g : ℤ) : ℕ := if 0 ≤ g then 2 ^ g.toNat else 0

/-- Macro `F_QDEV_SELECT_EXEC`: dispatch the nested U gate of an n-qubit
controlled gate to the 1-qubit or 2-qubit table.  A 2-qubit U is invoked
with the literal `0` (that is, `Q1_I`) as its own nested-U type argument,
exactly as the source macro does.  When the type is in neither class the
source leaves the value uninitialised along an unreachable path; the model
returns `0`. -/
noncomputable def f_qdev_select_exec (futype : QASM_F_TYPE) (fui fuj : ℕ) (fuform : ℤ)
    (fuargs : QDEV_F_ARGS_TYPE) : ℂ :=
  if QASM_F_TYPE_IS_GATE_1QUBIT futype then
    get_functionRefByFtype_gates_1qubit futype fui fuj fuargs
  else if QASM_F_TYPE_IS_GATE_2QUBIT futype then
    get_functionRefByFtype_gates_2qubit futype fui fuj fuform .Q1_I fuargs
  else 0

/-- `f_dev_qn_mcu_slr`: multi-controlled short/long-range U entry.  Signed
quantities (`gapn`, the control width `ctrln = fn - fu_n - gapn` and the
derived block counts) follow the source's `int` arithmetic; the
float-to-int conversions of `powf(2, ·)` are modelled by `pow2i`. -/
noncomputable def f_dev_qn_mcu_slr (i j : ℕ) (fn : ℕ) (fform : ℤ) (gapn : ℤ)
    (futype : QASM_F_TYPE) (fu_n : ℤ) (fuform : ℤ) (fuargs : QDEV_F_ARGS_TYPE) : ℂ :=
  let fsize := 2 ^ fn
  let fusize := pow2i fu_n
  let ctrln : ℤ := (fn : ℤ) - fu_n - gapn
  let fdbsize := fusize
  if fform = 0 then
    let tot_blocks : ℤ := (pow2i (ctrln + gapn) : ℤ)
    let tot_u_blocks : ℤ := (pow2i gapn : ℤ)
    let fdbi : ℤ := ((i / fdbsize : ℕ) : ℤ)
    let fdbj : ℤ := ((j / fdbsize : ℕ) : ℤ)
    if fdbi ≥ tot_blocks - tot_u_blocks ∧ fdbj ≥ tot_blocks - tot_u_blocks ∧ fdbi = fdbj then
      f_qdev_select_exec futype (i % fdbsize) (j % fdbsize) fuform fuargs
    else if fdbi < tot_blocks - tot_u_blocks ∧ fdbj < tot_blocks - tot_u_blocks ∧ i = j then 1
    else 0
  else
    let fubsize := fsize / fusize
    let f1bsize := pow2i ctrln
    let fubi := i % fubsize
    let fubj := j % fubsize
    let fugbsize := fubsize / pow2i gapn
    if fubi % fugbsize = fugbsize - 1 ∧ fubj % fugbsize = fugbsize - 1 ∧ fubi = fubj then
      f_qdev_select_exec futype (i / fubsize) (j / fubsize) fuform fuargs
    else if i % f1bsize < f1bsize - 1 ∧ j % f1bsize < f1bsize - 1 ∧ i = j then 1
    else 0

/-- `f_dev_q3_ccx`: Toffoli entry via the multi-controlled U function with a
1-qubit X target and no gap. -/
noncomputable def f_dev_q3_ccx (i j : ℕ) (_fn : ℕ) (fform : ℤ) (_gapn : ℤ)
    (_futype : QASM_F_TYPE) (_fu_n : ℤ) (fuform : ℤ) (_fuargs : QDEV_F_ARGS_TYPE) : ℂ :=
  f_dev_qn_mcu_slr i j 3 fform 0 .Q1_X 1 fuform QDEV_F_ARGS_NULL

/-- `get_functionRefByFtype_controlled_gates_nqubit`: static pointer table
for the n-qubit controlled gates. -/
noncomputable def get_functionRefByFtype_controlled_gates_nqubit (ft : QASM_F_TYPE) :
    ℕ → ℕ → ℕ → ℤ → ℤ → QASM_F_TYPE → ℤ → ℤ → QDEV_F_ARGS_TYPE → ℂ :=
  match ft with
  | .QN_MCSLRU => f_dev_qn_mcu_slr
  | .Q3_CCX => f_dev_q3_ccx
  | _ => fun _ _ _ _ _ _ _ _ _ => 0

/-- One gap-filled factor: a (gate type, block size, argument) triple, one
slot of the `ftype_vec`/`fsize_vec`/`fargs_vec` output arrays of
`f_dev_gap_filling`. -/
structure QDEV_F_FACTOR where
  ftype : QASM_F_TYPE
  fsize : ℕ
  fargs : QDEV_F_ARGS_TYPE

/-- `f_dev_gap_filling`: build the tensor-product factor list for one gate
application — optional identity filler for the untouched most significant
qubits, the requested gate `frep` times, optional identity filler of size
`2^flsq` for the untouched least significant qubits.  Returns `[]` (zero
factors, the error result) when a sanity check fails. -/
def f_dev_gap_filling (qsize : ℕ) (ftype : QASM_F_TYPE) (fsize frep flsq : ℕ)
    (fargs : QDEV_F_ARGS_TYPE) : List QDEV_F_FACTOR :=
  let qn := Nat.log2 qsize
  let fn := Nat.log2 fsize
  let fmsq := flsq + fn * frep - 1
  if 2 ^ fmsq > qsize then []
  else if fsize > qsize then []
  else
    (if fmsq < qn - 1 then [⟨.Q1_I, 2 ^ (qn - fmsq - 1), QDEV_F_ARGS_NULL⟩] else []) ++
      List.replicate frep ⟨ftype, fsize, fargs⟩ ++
      (if 0 < flsq then [⟨.Q1_I, 2 ^ flsq, QDEV_F_ARGS_NULL⟩] else [])

/-- `QDEV_F_VAL_EPS`: the early-exit threshold used by the tensor
evaluator. -/
noncomputable def QDEV_F_VAL_EPS : ℝ := 1e-21

/-- One dispatch step of `f_dev_qn_exec`: the factor's contribution at the
current working index pair, selected by the factor's gate class. -/
noncomputable def f_dev_exec_dispatch (fn : ℕ) (fform gapn : ℤ) (futype : QASM_F_TYPE)
    (fu_n fuform : ℤ) (f : QDEV_F_FACTOR) (ik jk : ℕ) : ℂ :=
  if QASM_F_TYPE_IS_GATE_1QUBIT f.ftype then
    get_functionRefByFtype_gates_1qubit f.ftype (ik % f.fsize) (jk % f.fsize) f.fargs
  else if QASM_F_TYPE_IS_GATE_2QUBIT f.ftype then
    get_functionRefByFtype_gates_2qubit f.ftype (ik % f.fsize) (jk % f.fsize) fform futype f.fargs
  else if QASM_F_TYPE_IS_GATE_NQUBIT f.ftype then
    get_functionRefByFtype_controlled_gates_nqubit f.ftype (ik % f.fsize) (jk % f.fsize)
      fn fform gapn futype fu_n fuform f.fargs
  else 1

/-- The iteration of `f_dev_qn_exec` over the factor list, already reversed
so that the least significant factor comes first; multiplies the
accumulator by each factor's entry, divides the working indices by the
factor size, and stops early once the accumulator magnitude falls below
`QDEV_F_VAL_EPS`, returning the accumulator as is. -/
noncomputable def f_dev_qn_exec_go (fn : ℕ) (fform gapn : ℤ) (futype : QASM_F_TYPE)
    (fu_n fuform : ℤ) : List QDEV_F_FACTOR → ℕ → ℕ → ℂ → ℂ
  | [], _, _, acc => acc
  | f :: rest, ik, jk, acc =>
    let acc2 := acc * f_dev_exec_dispatch fn fform gapn futype fu_n fuform f ik jk
    if Complex.abs acc2 < QDEV_F_VAL_EPS then acc2
    else f_dev_qn_exec_go fn fform gapn futype fu_n fuform rest (ik / f.fsize) (jk / f.fsize) acc2

/-- `f_dev_qn_exec`: evaluate the (i, j) coefficient of the gap-filled
tensor-product operator, iterating factors from the last (least
significant) to the first, with the early exit of the source. -/
noncomputable def f_dev_qn_exec (i j : ℕ) (factors : List QDEV_F_FACTOR) (fn : ℕ)
    (fform gapn : ℤ) (futype : QASM_F_TYPE) (fu_n fuform : ℤ) : ℂ :=
  f_dev_qn_exec_go fn fform gapn futype fu_n fuform factors.reverse i j 1

/-- The full-product variant of the evaluator loop: identical to
`f_dev_qn_exec_go` but without the early exit — the reference value the
early exit is supposed to preserve. -/
noncomputable def f_dev_qn_exec_full_go (fn : ℕ) (fform gapn : ℤ) (futype : QASM_F_TYPE)
    (fu_n fuform : ℤ) : List QDEV_F_FACTOR → ℕ → ℕ → ℂ → ℂ
  | [], _, _, acc => acc
  | f :: rest, ik, jk, acc =>
    f_dev_qn_exec_full_go fn fform gapn futype fu_n fuform rest (ik / f.fsize) (jk / f.fsize)
      (acc * f_dev_exec_dispatch fn fform gapn futype fu_n fuform f ik jk)

/-- The full product over all factors, without the early exit. -/
noncomputable def f_dev_qn_exec_full (i j : ℕ) (factors : List QDEV_F_FACTOR) (fn : ℕ)
    (fform gapn : ℤ) (futype : QASM_F_TYPE) (fu_n fuform : ℤ) : ℂ :=
  f_dev_qn_exec_full_go fn fform gapn futype fu_n fuform factors.reverse i j 1

/-- `sequential_prod_fxi`: the CPU kernel computing one output coefficient —
the sum of `x[k] * f_dev_qn_exec(idx, k, ...)` over the indices `k` of the
block containing `idx` (width `max_block_size`) that agree with `idx`
modulo the inner stride `block_inner_gap_size`. -/
noncomputable def sequential_prod_fxi (x : ℕ → ℂ) (idx N : ℕ)
    (factors : List QDEV_F_FACTOR) (max_block_size block_inner_gap_size : ℕ)
    (fn : ℕ) (fform gapn : ℤ) (futype : QASM_F_TYPE) (fu_n fuform : ℤ) : ℂ :=
  let k_step := block_inner_gap_size
  let k_start := (idx / max_block_size) * max_block_size
  let k_stop := min (N - 1) (k_start + max_block_size - 1)
  ∑ k in Finset.Icc k_start k_stop,
    if k % k_step = idx % k_step then
      x k * f_dev_qn_exec idx k factors fn fform gapn futype fu_n fuform
    else 0

/-- Register-side function argument list (`QREG_F_ARGS_TYPE`): the INT /
DOUBLE variants both reach the device as a double value. -/
def QREG_F_ARGS_TYPE := List ℝ

/-- `fargs_to_dev_ptr_array`: collapse the register-side argument list to
the device argument structure; the source loop overwrites `argv` with each
element in turn, so the last value wins. -/
def fargs_to_dev_ptr_array (fargs : List ℝ) : QDEV_F_ARGS_TYPE :=
  if 0 < fargs.length then ⟨fargs.length, fargs.getLast?.getD 0⟩ else ⟨0, 0⟩

/-- `qSim_qcpu_device::dev_qreg_apply_function_gate_1qubit`: gap filling for
a width-2 gate, then the kernel on every output index.  Returns `none` for
the `QDEV_RES_ERROR` sentinel when gap filling yields zero factors, leaving
the output buffer untouched; on success the returned function is the new
output buffer (output positions at or above `d_N` keep the old `d_y`
values, as the kernel guards `idx < N`). -/
noncomputable def dev_qreg_apply_function_gate_1qubit (d_x d_y : ℕ → ℂ) (d_N : ℕ)
    (ftype : QASM_F_TYPE) (frep flsq : ℕ) (fargs : List ℝ) : Option (ℕ → ℂ) :=
  let dev_fargs := fargs_to_dev_ptr_array fargs
  let fn := 1
  let fsize := 2
  let factors := f_dev_gap_filling d_N ftype fsize frep flsq dev_fargs
  if factors.length < 1 then none
  else
    let max_block_size := 2 ^ (fn * frep + flsq)
    let block_inner_gap_size := 2 ^ flsq
    some fun idx =>
      if idx < d_N then
        sequential_prod_fxi d_x idx d_N factors max_block_size block_inner_gap_size
          fn 0 0 .Q1_I (-1) 0
      else d_y idx

/-- `qSim_qcpu_device::dev_qreg_apply_function_gate_2qubit`: the 2-qubit
variant; width 4, form and nested-U type threaded through to the kernel,
nested-U form fixed at direct. -/
noncomputable def dev_qreg_apply_function_gate_2qubit (d_x d_y : ℕ → ℂ) (d_N : ℕ)
    (ftype : QASM_F_TYPE) (frep flsq : ℕ) (fform : ℤ) (futype : QASM_F_TYPE)
    (fuargs : List ℝ) : Option (ℕ → ℂ) :=
  let dev_fuargs := fargs_to_dev_ptr_array fuargs
  let fn := 2
  let fsize := 4
  let fuform : ℤ := 0
  let factors := f_dev_gap_filling d_N ftype fsize frep flsq dev_fuargs
  if factors.length < 1 then none
  else
    let max_block_size := 2 ^ (fn * frep + flsq)
    let block_inner_gap_size := 2 ^ flsq
    some fun idx =>
      if idx < d_N then
        sequential_prod_fxi d_x idx d_N factors max_block_size block_inner_gap_size
          fn fform 0 futype 1 fuform
      else d_y idx

/-- `qSim_qcpu_device::dev_qreg_apply_function_controlled_gate_nqubit`: the
n-qubit variant; width from `fsize`, gap width, nested-U type/width/form
threaded through. -/
noncomputable def dev_qreg_apply_function_controlled_gate_nqubit (d_x d_y : ℕ → ℂ)
    (d_N : ℕ) (ftype : QASM_F_TYPE) (fsize frep flsq : ℕ) (fform fgapn : ℤ)
    (futype : QASM_F_TYPE) (fu_n fuform : ℤ) (fuargs : List ℝ) : Option (ℕ → ℂ) :=
  let dev_fuargs := fargs_to_dev_ptr_array fuargs
  let fn := Nat.log2 fsize
  let factors := f_dev_gap_filling d_N ftype fsize frep flsq dev_fuargs
  if factors.length < 1 then none
  else
    let max_block_size := 2 ^ (fn * frep + flsq)
    let block_inner_gap_size := 2 ^ flsq
    some fun idx =>
      if idx < d_N then
        sequential_prod_fxi d_x idx d_N factors max_block_size block_inner_gap_size
          fn fform fgapn futype fu_n fuform
      else d_y idx

/-- Instruction function control/target index range
(`qSim_qasm_index_range`), with start and stop both `-1` as the null
range. -/
structure QREG_F_INDEX_RANGE_TYPE where
  m_start : ℤ
  m_stop : ℤ
  deriving DecidableEq, Repr

/-- `qSim_qasm_index_range::is_empty`. -/
def QREG_F_INDEX_RANGE_TYPE.is_empty (r : QREG_F_INDEX_RANGE_TYPE) : Bool :=
  r.m_start = -1 ∧ r.m_stop = -1

/-- The null index range (default constructor). -/
def QREG_F_INDEX_RANGE_NULL : QREG_F_INDEX_RANGE_TYPE := ⟨-1, -1⟩

/-- `qSim_qinstruction_core::ctrange_2_form`: derive the gate form from the
control and target index ranges — direct (0) when the control range starts
above the target range, inverse (1) otherwise, null (-1) when a range is
empty. -/
def ctrange_2_form (fcrng ftrng : QREG_F_INDEX_RANGE_TYPE) : ℤ :=
  if ¬fcrng.is_empty ∧ ¬ftrng.is_empty then
    if fcrng.m_start > ftrng.m_stop then 0 else 1
  else -1

/-- The register state (`qSim_qreg`): qubit count, the two device buffers
(ping-pong input/output), the host copy and the host/device
synchronisation flag.  The state arrays are total functions on `ℕ`; only
indices below `2^totQubits` are meaningful. -/
structure qSim_qreg_state where
  totQubits : ℕ
  devStates_x : ℕ → ℂ
  devStates_y : ℕ → ℂ
  states_x : ℕ → ℂ
  syncFlag : Bool

/-- `m_totStates` of a register. -/
def qSim_qreg_state.totStates (r : qSim_qreg_state) : ℕ := 2 ^ r.totQubits

/-- Outcome of the capacity check at the head of `qSim_qreg::transform`
(qSim_qcpu module version, the form without the `-1` term). -/
inductive QREG_TRANSFORM_CHECK where
  | ok
  | rep_error
  | lsq_error
  deriving DecidableEq, Repr

/-- The final check before execution in `qSim_qreg::transform`: function
repetitions against the register size, then LSQ consistency
(`fsize^frep + 2^flsq` against the total states, the strict form). -/
def qSim_qreg_transform_capacity_check (fsize frep flsq totStates : ℕ) :
    QREG_TRANSFORM_CHECK :=
  if fsize ^ frep > totStates then .rep_error
  else if fsize ^ frep + 2 ^ flsq > totStates then .lsq_error
  else .ok

/-- `qSim_qreg::transform`: capacity checks, dispatch on the gate-type
class to the device entry point, and on success the input/output device
buffer swap plus unsetting of the sync flag.  On any failure — capacity
check, zero gap-filling factors (device error sentinel), or an unhandled
function type — the result is `false` and the register is returned
unchanged. -/
noncomputable def qSim_qreg_transform (r : qSim_qreg_state) (ftype : QASM_F_TYPE)
    (fsize frep flsq : ℕ) (fcrng ftrng : QREG_F_INDEX_RANGE_TYPE) (fargs : List ℝ)
    (futype : QASM_F_TYPE) (fucrng futrng : QREG_F_INDEX_RANGE_TYPE) (fuargs : List ℝ) :
    Bool × qSim_qreg_state :=
  match qSim_qreg_transform_capacity_check fsize frep flsq r.totStates with
  | .rep_error => (false, r)
  | .lsq_error => (false, r)
  | .ok =>
    let dispatched : Option (Option (ℕ → ℂ)) :=
      if QASM_F_TYPE_IS_GATE_1QUBIT ftype then
        some (dev_qreg_apply_function_gate_1qubit r.devStates_x r.devStates_y r.totStates
          ftype frep flsq fargs)
      else if QASM_F_TYPE_IS_GATE_2QUBIT ftype then
        let fform := ctrange_2_form fcrng ftrng
        some (dev_qreg_apply_function_gate_2qubit r.devStates_x r.devStates_y r.totStates
          ftype frep flsq fform futype fuargs)
      else if QASM_F_TYPE_IS_GATE_NQUBIT ftype then
        let fform := ctrange_2_form fcrng ftrng
        let fgapn : ℤ :=
          if fform = 0 then fcrng.m_start - ftrng.m_stop - 1
          else ftrng.m_start - fcrng.m_stop - 1
        let fu_n : ℤ := if QASM_F_TYPE_IS_GATE_1QUBIT futype then 1 else 2
        let fuform := ctrange_2_form fucrng futrng
        some (dev_qreg_apply_function_controlled_gate_nqubit r.devStates_x r.devStates_y
          r.totStates ftype fsize frep flsq fform fgapn futype fu_n fuform fuargs)
      else none
    match dispatched with
    | none => (false, r)
    | some none => (false, r)
    | some (some y) =>
      (true, { r with devStates_x := y, devStates_y := r.devStates_x, syncFlag := false })

/-- `MEASURE_MAX_INDEX_VEC_SIZE`: the fixed performance threshold on qubit
counts used by peek and by the measured-index-vector warning. -/
def MEASURE_MAX_INDEX_VEC_SIZE : ℕ := 10

/-- `qSim_qreg::synchDevStates`: copy the device buffer to the host copy
when the sync flag is unset. -/
def synchDevStates (r : qSim_qreg_state) : qSim_qreg_state :=
  if r.syncFlag then r else { r with states_x := r.devStates_x, syncFlag := true }

/-- `qSim_qreg::getStates` (the peek instruction): fail outright when the
register size exceeds the threshold, otherwise synchronise and return the
state values. -/
def qSim_qreg_getStates (r : qSim_qreg_state) : Bool × List ℂ :=
  if r.totQubits > MEASURE_MAX_INDEX_VEC_SIZE then (false, [])
  else
    let r2 := synchDevStates r
    (true, (List.range r.totStates).map r2.states_x)

/-- `qSim_qreg::get_state_bitval`: extract `b_len` bits of `val` starting
at bit `b_idx`, via the per-bit mask-and-shift loop of the source. -/
def get_state_bitval (val b_idx b_len : ℕ) : ℕ :=
  ∑ i in Finset.range b_len, 2 ^ i * (Nat.land val (2 ^ (b_idx + i)) >>> (b_idx + i))

/-- `qSim_qreg::get_state_measure_expectation`: probability of sub-state
`st_idx` of the measured sub-register — the squared magnitude of the single
coefficient for a whole-register measure, else the sum of squared
magnitudes over all full states whose projected bits match. -/
noncomputable def get_state_measure_expectation (r : qSim_qreg_state)
    (st_idx q_idx q_len : ℕ) : ℝ :=
  if q_idx = 0 ∧ q_len = r.totQubits then Complex.normSq (r.states_x st_idx)
  else
    ∑ i in Finset.range r.totStates,
      if st_idx = get_state_bitval i q_idx q_len then Complex.normSq (r.states_x i) else 0

/-- Result record of a measure call: the boolean result, measured sub-state
index, its probability, the collapsed-state index vector and the updated
register. -/
structure QREG_MEASURE_RESULT where
  res : Bool
  m_st : ℕ
  m_exp : ℝ
  m_vec : List ℕ
  qreg : qSim_qreg_state

/-- The random-policy selection loop of `qSim_qreg::do_state_measure`:
start from sub-state `0`, scan `1 .. q_stn-1` in ascending order and take
a sub-state exactly when its probability is at least the drawn value and
strictly below the current candidate's probability. -/
noncomputable def do_state_measure_rnd_scan (pr_vec : ℕ → ℝ) (q_stn : ℕ) (pr_rnd : ℝ) :
    ℕ × ℝ :=
  (List.range' 1 (q_stn - 1)).foldl
    (fun sp i => if pr_vec i ≥ pr_rnd ∧ pr_vec i < sp.2 then (i, pr_vec i) else sp)
    (0, pr_vec 0)

/-- The deterministic selection loop of `qSim_qreg::do_state_measure`:
take the sub-state of highest probability, scanning in ascending order. -/
noncomputable def do_state_measure_max_scan (pr_vec : ℕ → ℝ) (q_stn : ℕ) : ℕ × ℝ :=
  (List.range' 1 (q_stn - 1)).foldl
    (fun sp i => if pr_vec i > sp.2 then (i, pr_vec i) else sp)
    (0, pr_vec 0)

/-- `qSim_qreg::do_state_measure`: normalise a negative `q_idx` to a
whole-register measure, compute the per-sub-state probabilities, select
the measured sub-state by the random or deterministic policy, and when
collapsing zero the non-matching coefficients, divide the matching ones by
the square root of the measured probability, record the collapsed index
vector and realign the device buffer.  The drawn random value `pr_rnd` is a
parameter of the model; the `d_vals` flag is accepted and, as in the
source, never read. -/
noncomputable def do_state_measure (r : qSim_qreg_state) (q_idx q_len : ℤ)
    (do_rnd collapse_st : Bool) (pr_rnd : ℝ) (d_vals : Bool) : QREG_MEASURE_RESULT :=
  let q_idx2 : ℕ := if q_idx < 0 then 0 else q_idx.toNat
  let q_len2 : ℕ := if q_idx < 0 then r.totQubits else q_len.toNat
  let q_stn : ℕ := 2 ^ q_len2
  let pr_vec : ℕ → ℝ := fun i => get_state_measure_expectation r i q_idx2 q_len2
  let sel : ℕ × ℝ :=
    if do_rnd then do_state_measure_rnd_scan pr_vec q_stn pr_rnd
    else do_state_measure_max_scan pr_vec q_stn
  let _ := d_vals
  if collapse_st then
    let newx : ℕ → ℂ := fun i =>
      if i < r.totStates then
        if get_state_bitval i q_idx2 q_len2 = sel.1 then
          r.states_x i / ((Real.sqrt sel.2 : ℝ) : ℂ)
        else 0
      else r.states_x i
    let newdev : ℕ → ℂ := fun i => if i < r.totStates then newx i else r.devStates_x i
    { res := true, m_st := sel.1, m_exp := sel.2,
      m_vec := (List.range r.totStates).filter
        (fun i => get_state_bitval i q_idx2 q_len2 = sel.1),
      qreg := { r with states_x := newx, devStates_x := newdev } }
  else
    { res := true, m_st := sel.1, m_exp := sel.2, m_vec := [], qreg := r }

/-- The failure result of `qSim_qreg::measureState`: `false` with the
output parameters untouched (modelled as zeros / empty) and the register
unchanged. -/
def qSim_qreg_measure_fail (r : qSim_qreg_state) : QREG_MEASURE_RESULT :=
  { res := false, m_st := 0, m_exp := 0, m_vec := [], qreg := r }

/-- `qSim_qreg::measureState`: sanity checks on the sub-register span,
computation of the index-vector size warning flag, host/device
synchronisation and the measure itself. -/
noncomputable def qSim_qreg_measureState (r : qSim_qreg_state) (q_idx q_len : ℤ)
    (m_rand m_coll : Bool) (pr_rnd : ℝ) : QREG_MEASURE_RESULT :=
  if q_idx > (r.totQubits : ℤ) - 1 then qSim_qreg_measure_fail r
  else if q_len < 0 ∨ q_len > (r.totQubits : ℤ) - q_idx then qSim_qreg_measure_fail r
  else
    let d_vals : Bool := (r.totQubits : ℤ) - q_len ≤ (MEASURE_MAX_INDEX_VEC_SIZE : ℤ)
    let r2 := synchDevStates r
    do_state_measure r2 q_idx q_len m_rand m_coll pr_rnd d_vals

/-- One primitive transform instruction produced by block unwrapping: the
argument tuple of a `QASM_MSG_ID_QREG_ST_TRANSFORM` core instruction. -/
structure QREG_CORE_TRANSFORM_INSTR where
  ftype : QASM_F_TYPE
  fsize : ℕ
  frep : ℕ
  flsq : ℕ
  fcrng : QREG_F_INDEX_RANGE_TYPE
  ftrng : QREG_F_INDEX_RANGE_TYPE
  fargs : List ℝ
  futype : QASM_F_TYPE
  fucrng : QREG_F_INDEX_RANGE_TYPE
  futrng : QREG_F_INDEX_RANGE_TYPE
  fuargs : List ℝ

/-- A core transform instruction with only the gate fields set, the
nested-U fields null, matching the `qSim_qinstruction_core` transformation
constructor used by the swap unwrap. -/
def mk_core_cx_instr (fsize frep flsq : ℕ) (fcrng ftrng : QREG_F_INDEX_RANGE_TYPE) :
    QREG_CORE_TRANSFORM_INSTR :=
  ⟨.Q2_CX, fsize, frep, flsq, fcrng, ftrng, [], .NULL,
    QREG_F_INDEX_RANGE_NULL, QREG_F_INDEX_RANGE_NULL, []⟩

/-- `qSim_qinstruction_block::unwrap_block_swap_q1`: the 1-qubit swap block
decomposes into three alternated controlled-X core transformations on the
same least significant qubit — direct form (control above target), inverse
form, direct form. -/
def unwrap_block_swap_q1 (frep flsq : ℕ) : List QREG_CORE_TRANSFORM_INSTR :=
  let fsize := 4
  let fcrng_d : QREG_F_INDEX_RANGE_TYPE := ⟨1, 1⟩
  let ftrng_d : QREG_F_INDEX_RANGE_TYPE := ⟨0, 0⟩
  let fcrng_i : QREG_F_INDEX_RANGE_TYPE := ⟨0, 0⟩
  let ftrng_i : QREG_F_INDEX_RANGE_TYPE := ⟨1, 1⟩
  [mk_core_cx_instr fsize frep flsq fcrng_d ftrng_d,
   mk_core_cx_instr fsize frep flsq fcrng_i ftrng_i,
   mk_core_cx_instr fsize frep flsq fcrng_d ftrng_d]

/-- Apply one unwrapped core transform instruction to a register via
`qSim_qreg::transform`, keeping the register unchanged on failure (the
block loop in `applyBlockInstruction` forwards each instruction's fields to
`transform`). -/
noncomputable def apply_core_transform_instr (r : qSim_qreg_state)
    (q : QREG_CORE_TRANSFORM_INSTR) : Bool × qSim_qreg_state :=
  qSim_qreg_transform r q.ftype q.fsize q.frep q.flsq q.fcrng q.ftrng q.fargs
    q.futype q.fucrng q.futrng q.fuargs

/-- Apply a list of unwrapped core transform instructions in sequence,
keeping the register state of each step (failures leave the register
unchanged and the remaining sequence is aborted, as in
`applyBlockInstruction`). -/
noncomputable def apply_core_transform_list (r : qSim_qreg_state) :
    List QREG_CORE_TRANSFORM_INSTR → qSim_qreg_state
  | [] => r
  | q :: rest =>
    let step := apply_core_transform_instr r q
    if step.1 then apply_core_transform_list step.2 rest else step.2

/-- Base-2 logarithm of a power of two. -/
theorem nat_log2_two_pow (n : ℕ) : Nat.log2 (2 ^ n) = n := by
  rw [Nat.log2_eq_log_two]
  exact Nat.log_pow one_lt_two n

/-- C4: for every gate descriptor whose repetition check passes
(`fsize^frep ≤ totStates`), the transform fails with the LSQ-inconsistency
error exactly when `fsize^frep + 2^flsq` exceeds the total states (the
strict capacity-check form, without the `-1` term); in particular the
boundary `fsize^frep + 2^flsq = totStates + 1` fails; and an
LSQ-inconsistent call returns `false` with the register unchanged, before
any backend dispatch. -/
theorem C4_strict_capacity_check (fsize frep flsq N : ℕ) (h : fsize ^ frep ≤ N) :
    (qSim_qreg_transform_capacity_check fsize frep flsq N = .lsq_error ↔
      N < fsize ^ frep + 2 ^ flsq) ∧
    (fsize ^ frep + 2 ^ flsq = N + 1 →
      qSim_qreg_transform_capacity_check fsize frep flsq N = .lsq_error) ∧
    (∀ (r : qSim_qreg_state) (ftype : QASM_F_TYPE)
        (fcrng ftrng : QREG_F_INDEX_RANGE_TYPE) (fargs : List ℝ)
        (futype : QASM_F_TYPE) (fucrng futrng : QREG_F_INDEX_RANGE_TYPE)
        (fuargs : List ℝ), r.totStates = N → N < fsize ^ frep + 2 ^ flsq →
        qSim_qreg_transform r ftype fsize frep flsq fcrng ftrng fargs
          futype fucrng futrng fuargs = (false, r)) := by
  have hch : qSim_qreg_transform_capacity_check fsize frep flsq N =
      if N < fsize ^ frep + 2 ^ flsq then .lsq_error else .ok := by
    unfold qSim_qreg_transform_capacity_check
    rw [if_neg (by omega)]
  refine ⟨?_, ?_, ?_⟩
  · rw [hch]
    split_ifs with h2
    · simp [h2]
    · simpa using h2
  · intro hb
    rw [hch, if_pos (by omega)]
  · intro r ftype fcrng ftrng fargs futype fucrng futrng fuargs hN hlt
    have hc : qSim_qreg_transform_capacity_check fsize frep flsq r.totStates = .lsq_error := by
      rw [hN, hch, if_pos hlt]
    simp [qSim_qreg_transform, hc]

/-- Witness for C4 at the boundary input `fsize = 4`, `frep = 1`,
`flsq = 0`, `totStates = 4` (exactly `totStates + 1`): the check reports
the LSQ inconsistency. -/
theorem C4_strict_capacity_check_witness :
    (4 : ℕ) ^ 1 ≤ 4 ∧ (4 : ℕ) ^ 1 + 2 ^ 0 = 4 + 1 ∧
    qSim_qreg_transform_capacity_check 4 1 0 4 = .lsq_error :=
  ⟨by norm_num, by norm_num,
    (C4_strict_capacity_check 4 1 0 4 (by norm_num)).2.1 (by norm_num)⟩

/-- C5: at `qsize = 8`, a width-2 gate with `frep = 2`, `flsq = 2` has
`fmsq = 3 = qn`, so the gate span does not fit the register and the spec
requires the zero-factor failure; the code's check `2^fmsq > qsize` lets
equality through and returns three factors whose block sizes multiply to
16, twice the register size — violating the documented factor-list
invariant. -/
theorem C5_gap_filling_off_by_one_bug :
    (f_dev_gap_filling 8 .Q1_H 2 2 2 QDEV_F_ARGS_NULL).length = 3 ∧
    ((f_dev_gap_filling 8 .Q1_H 2 2 2 QDEV_F_ARGS_NULL).map QDEV_F_FACTOR.fsize).prod
      = 16 := by
  constructor <;> simp [f_dev_gap_filling, Nat.log2]

/-- C3: whenever a transform call fails — capacity-check failure before
dispatch, a backend entry point reporting the error sentinel (zero
gap-filling factors), or an unhandled gate type — the call returns `false`
and the register is exactly what it was: no buffer swap, no sync-flag
change, no visible state change. -/
theorem C3_transform_failure_no_mutation (r : qSim_qreg_state) (ftype : QASM_F_TYPE)
    (fsize frep flsq : ℕ) (fcrng ftrng : QREG_F_INDEX_RANGE_TYPE) (fargs : List ℝ)
    (futype : QASM_F_TYPE) (fucrng futrng : QREG_F_INDEX_RANGE_TYPE) (fuargs : List ℝ)
    (h : (qSim_qreg_transform r ftype fsize frep flsq fcrng ftrng fargs
        futype fucrng futrng fuargs).1 = false) :
    (qSim_qreg_transform r ftype fsize frep flsq fcrng ftrng fargs
        futype fucrng futrng fuargs).2 = r := by
  unfold qSim_qreg_transform at h ⊢
  cases hc : qSim_qreg_transform_capacity_check fsize frep flsq r.totStates with
  | rep_error => simp [hc]
  | lsq_error => simp [hc]
  | ok =>
    simp only [hc] at h ⊢
    by_cases h1 : QASM_F_TYPE_IS_GATE_1QUBIT ftype = true
    · simp only [h1, if_true] at h ⊢
      cases happ : dev_qreg_apply_function_gate_1qubit r.devStates_x r.devStates_y
          r.totStates ftype frep flsq fargs with
      | none => simp [happ]
      | some y => simp [happ] at h
    · simp only [h1, if_false, Bool.false_eq_true] at h ⊢
      by_cases h2 : QASM_F_TYPE_IS_GATE_2QUBIT ftype = true
      · simp only [h2, if_true] at h ⊢
        cases happ : dev_qreg_apply_function_gate_2qubit r.devStates_x r.devStates_y
            r.totStates ftype frep flsq (ctrange_2_form fcrng ftrng) futype fuargs with
        | none => simp [happ]
        | some y => simp [happ] at h
      · simp only [h2, if_false, Bool.false_eq_true] at h ⊢
        by_cases h3 : QASM_F_TYPE_IS_GATE_NQUBIT ftype = true
        · simp only [h3, if_true] at h ⊢
          cases happ : dev_qreg_apply_function_controlled_gate_nqubit r.devStates_x
              r.devStates_y r.totStates ftype fsize frep flsq (ctrange_2_form fcrng ftrng)
              (if ctrange_2_form fcrng ftrng = 0 then fcrng.m_start - ftrng.m_stop - 1
                else ftrng.m_start - fcrng.m_stop - 1)
              futype (if QASM_F_TYPE_IS_GATE_1QUBIT futype then 1 else 2)
              (ctrange_2_form fucrng futrng) fuargs with
          | none => simp [happ]
          | some y => simp [happ] at h
        · simp [h3]

/-- Witness for C3: on a 4-qubit register, a Hadamard with `frep = 3`,
`flsq = 3` passes the capacity checks but gap filling produces zero
factors (`fmsq = 5 > 4`), so the backend reports the error sentinel and
the transform returns `false` with the register unchanged. -/
theorem C3_transform_failure_no_mutation_witness :
    (qSim_qreg_transform ⟨4, fun _ => 0, fun _ => 0, fun _ => 0, true⟩ .Q1_H 2 3 3
        QREG_F_INDEX_RANGE_NULL QREG_F_INDEX_RANGE_NULL [] .NULL
        QREG_F_INDEX_RANGE_NULL QREG_F_INDEX_RANGE_NULL []).1 = false ∧
    (qSim_qreg_transform ⟨4, fun _ => 0, fun _ => 0, fun _ => 0, true⟩ .Q1_H 2 3 3
        QREG_F_INDEX_RANGE_NULL QREG_F_INDEX_RANGE_NULL [] .NULL
        QREG_F_INDEX_RANGE_NULL QREG_F_INDEX_RANGE_NULL []).2 =
      ⟨4, fun _ => 0, fun _ => 0, fun _ => 0, true⟩ := by
  have h : (qSim_qreg_transform ⟨4, fun _ => 0, fun _ => 0, fun _ => 0, true⟩ .Q1_H 2 3 3
      QREG_F_INDEX_RANGE_NULL QREG_F_INDEX_RANGE_NULL [] .NULL
      QREG_F_INDEX_RANGE_NULL QREG_F_INDEX_RANGE_NULL []).1 = false := by
    simp [qSim_qreg_transform, qSim_qreg_transform_capacity_check, qSim_qreg_state.totStates,
      dev_qreg_apply_function_gate_1qubit, f_dev_gap_filling, fargs_to_dev_ptr_array,
      QASM_F_TYPE_IS_GATE_1QUBIT, Nat.log2]
  exact ⟨h, C3_transform_failure_no_mutation _ _ _ _ _ _ _ _ _ _ _ _ h⟩

/-- C8 counterexample: a peek on an 11-qubit register is a hard failure —
`getStates` returns `false`, contradicting the claim that oversized peeks
still succeed with a warning and empty data. -/
theorem C8_peek_hard_failure_counterexample :
    (qSim_qreg_getStates ⟨11, fun _ => 0, fun _ => 0, fun _ => 0, true⟩).1 = false := by
  simp [qSim_qreg_getStates, MEASURE_MAX_INDEX_VEC_SIZE]

/-- C8 (amended): a peek fails outright exactly when the register has more
than 10 qubits; the measure index-vector threshold compares
`totQubits - q_len` with 10 (not the register size with 20) and only
controls a warning — `do_state_measure` never reads the flag, so a measure
call with valid sub-register arguments succeeds and returns the same data
either way. -/
theorem C8_soft_limit_amended :
    (∀ r : qSim_qreg_state,
        (qSim_qreg_getStates r).1 = false ↔ MEASURE_MAX_INDEX_VEC_SIZE < r.totQubits) ∧
    (∀ (r : qSim_qreg_state) (q_idx q_len : ℤ) (m_rand m_coll : Bool) (pr_rnd : ℝ)
        (d1 d2 : Bool),
        do_state_measure r q_idx q_len m_rand m_coll pr_rnd d1 =
          do_state_measure r q_idx q_len m_rand m_coll pr_rnd d2) ∧
    (∀ (r : qSim_qreg_state) (q_idx q_len : ℤ) (m_rand m_coll : Bool) (pr_rnd : ℝ),
        q_idx ≤ (r.totQubits : ℤ) - 1 → 0 ≤ q_len → q_len ≤ (r.totQubits : ℤ) - q_idx →
        (qSim_qreg_measureState r q_idx q_len m_rand m_coll pr_rnd).res = true) := by
  refine ⟨?_, ?_, ?_⟩
  · intro r
    unfold qSim_qreg_getStates
    split_ifs with h1
    · simpa using h1
    · simpa using h1
  · intro r q_idx q_len m_rand m_coll pr_rnd d1 d2
    unfold do_state_measure
    rfl
  · intro r q_idx q_len m_rand m_coll pr_rnd h1 h2 h3
    unfold qSim_qreg_measureState
    rw [if_neg (by omega), if_neg (by omega)]
    unfold do_state_measure
    split_ifs <;> rfl

/-- Witness for C8 (amended): a full measure on a 1-qubit register
succeeds. -/
theorem C8_soft_limit_amended_witness :
    (qSim_qreg_measureState ⟨1, fun _ => 0, fun _ => 0, fun _ => 0, true⟩ 0 1
        false false 0).res = true :=
  C8_soft_limit_amended.2.2 ⟨1, fun _ => 0, fun _ => 0, fun _ => 0, true⟩ 0 1 false false 0
    (by norm_num) (by norm_num) (by norm_num)

/-- Qubit count is untouched by host/device synchronisation. -/
theorem synchDevStates_totQubits (r : qSim_qreg_state) :
    (synchDevStates r).totQubits = r.totQubits := by
  unfold synchDevStates
  split_ifs <;> rfl

/-- Extracting zero bits yields the sub-state value 0. -/
theorem get_state_bitval_zero_len (val b_idx : ℕ) : get_state_bitval val b_idx 0 = 0 := by
  simp [get_state_bitval]

/-- Core of C10 at the `do_state_measure` level: a zero-length collapse
measure on any register has the single outcome 0, whose probability is the
squared-magnitude sum of the whole state; every full-state index matches,
so the collapsed index vector is the full range and each coefficient is
divided by the square root of that sum — by 1 on a normalized state. -/
theorem do_state_measure_zero_len (r2 : qSim_qreg_state) (k : ℕ)
    (hn : 1 ≤ r2.totQubits) (m_rand : Bool) (pr_rnd : ℝ) (d : Bool) :
    (do_state_measure r2 (k : ℤ) 0 m_rand true pr_rnd d).res = true ∧
    (do_state_measure r2 (k : ℤ) 0 m_rand true pr_rnd d).m_st = 0 ∧
    (do_state_measure r2 (k : ℤ) 0 m_rand true pr_rnd d).m_exp =
      ∑ i in Finset.range r2.totStates, Complex.normSq (r2.states_x i) ∧
    (do_state_measure r2 (k : ℤ) 0 m_rand true pr_rnd d).m_vec = List.range r2.totStates ∧
    ((∑ i in Finset.range r2.totStates, Complex.normSq (r2.states_x i)) = 1 →
      ∀ i, (do_state_measure r2 (k : ℤ) 0 m_rand true pr_rnd d).qreg.states_x i =
        r2.states_x i) := by
  have hneg : ¬((k : ℤ) < 0) := by omega
  have hexp : get_state_measure_expectation r2 0 k 0 =
      ∑ i in Finset.range r2.totStates, Complex.normSq (r2.states_x i) := by
    unfold get_state_measure_expectation
    rw [if_neg (by omega)]
    refine Finset.sum_congr rfl ?_
    intro i _
    rw [get_state_bitval_zero_len, if_pos rfl]
  unfold do_state_measure
  simp only [if_neg hneg, Int.toNat_natCast, Int.toNat_zero, pow_zero, if_true]
  have hsel : (if m_rand = true then
        do_state_measure_rnd_scan (fun i => get_state_measure_expectation r2 i k 0) 1 pr_rnd
      else
        do_state_measure_max_scan (fun i => get_state_measure_expectation r2 i k 0) 1) =
      (0, get_state_measure_expectation r2 0 k 0) := by
    cases m_rand <;>
      simp [do_state_measure_rnd_scan, do_state_measure_max_scan, List.range']
  rw [hsel]
  refine ⟨trivial, rfl, hexp, ?_, ?_⟩
  · simp [get_state_bitval_zero_len]
  · intro hnorm i
    simp only [get_state_bitval_zero_len, if_pos rfl, hexp, hnorm]
    by_cases hi : i < r2.totStates
    · rw [if_pos hi]
      norm_num
    · rw [if_neg hi]

/-- C10: a measure call with sub-register length 0 passes the precondition
checks for every valid start qubit (only `q_idx > n-1`, `q_len < 0` and
`q_len > n - q_idx` are rejected), returns outcome 0 with probability the
squared-magnitude sum of the entire (synchronised) state, collapses every
index into the returned index list, and on a normalized state leaves every
coefficient unchanged (division by √1 = 1). -/
theorem C10_zero_length_measure (r : qSim_qreg_state) (q_idx : ℤ)
    (hn : 1 ≤ r.totQubits) (h0 : 0 ≤ q_idx) (h1 : q_idx ≤ (r.totQubits : ℤ) - 1)
    (m_rand : Bool) (pr_rnd : ℝ) :
    (qSim_qreg_measureState r q_idx 0 m_rand true pr_rnd).res = true ∧
    (qSim_qreg_measureState r q_idx 0 m_rand true pr_rnd).m_st = 0 ∧
    (qSim_qreg_measureState r q_idx 0 m_rand true pr_rnd).m_exp =
      ∑ i in Finset.range r.totStates, Complex.normSq ((synchDevStates r).states_x i) ∧
    (qSim_qreg_measureState r q_idx 0 m_rand true pr_rnd).m_vec = List.range r.totStates ∧
    ((∑ i in Finset.range r.totStates, Complex.normSq ((synchDevStates r).states_x i)) = 1 →
      ∀ i, (qSim_qreg_measureState r q_idx 0 m_rand true pr_rnd).qreg.states_x i =
        (synchDevStates r).states_x i) := by
  obtain ⟨k, rfl⟩ : ∃ k : ℕ, q_idx = (k : ℤ) := ⟨q_idx.toNat, (Int.toNat_of_nonneg h0).symm⟩
  have hsq : (synchDevStates r).totQubits = r.totQubits := synchDevStates_totQubits r
  have hsts : (synchDevStates r).totStates = r.totStates := by
    unfold qSim_qreg_state.totStates
    rw [hsq]
  have H := do_state_measure_zero_len (synchDevStates r) k (by omega) m_rand pr_rnd
    (decide (((r.totQubits : ℤ) - 0) ≤ (MEASURE_MAX_INDEX_VEC_SIZE : ℤ)))
  rw [hsts] at H
  unfold qSim_qreg_measureState
  rw [if_neg (by omega), if_neg (by omega)]
  exact H

/-- Witness for C10: a zero-length collapse measure on a 1-qubit register
set to the ground state succeeds with outcome 0 and leaves the state
unchanged. -/
theorem C10_zero_length_measure_witness :
    (qSim_qreg_measureState
        ⟨1, fun i => if i = 0 then 1 else 0, fun _ => 0, fun i => if i = 0 then 1 else 0, true⟩
        0 0 false true 0).res = true ∧
    (qSim_qreg_measureState
        ⟨1, fun i => if i = 0 then 1 else 0, fun _ => 0, fun i => if i = 0 then 1 else 0, true⟩
        0 0 false true 0).m_st = 0 ∧
    (∀ i, (qSim_qreg_measureState
        ⟨1, fun i => if i = 0 then 1 else 0, fun _ => 0, fun i => if i = 0 then 1 else 0, true⟩
        0 0 false true 0).qreg.states_x i =
      (synchDevStates
        ⟨1, fun i => if i = 0 then 1 else 0, fun _ => 0,
          fun i => if i = 0 then 1 else 0, true⟩).states_x i) := by
  have H := C10_zero_length_measure
    ⟨1, fun i => if i = 0 then 1 else 0, fun _ => 0, fun i => if i = 0 then 1 else 0, true⟩
    0 (by norm_num) (by norm_num) (by norm_num) false 0
  have hnorm : (∑ i in Finset.range
      (qSim_qreg_state.totStates
        ⟨1, fun i => if i = 0 then 1 else 0, fun _ => 0, fun i => if i = 0 then 1 else 0, true⟩),
      Complex.normSq ((synchDevStates
        ⟨1, fun i => if i = 0 then 1 else 0, fun _ => 0,
          fun i => if i = 0 then 1 else 0, true⟩).states_x i)) = 1 := by
    simp [qSim_qreg_state.totStates, synchDevStates, Finset.sum_range_succ]
  exact ⟨H.1, H.2.1, H.2.2.2.2 hnorm⟩

/-- Modelled from the spec (the claim's selection rule, stated
independently of the source loop): the candidate outcome after scanning
outcomes `1 .. m` in ascending order, starting from candidate 0 and
replacing the candidate exactly when the scanned outcome's probability is
at least the drawn value `r` and strictly below the current candidate's
probability. -/
noncomputable def spec_random_selection_candidate (p : ℕ → ℝ) (r : ℝ) : ℕ → ℕ
  | 0 => 0
  | m + 1 =>
    let c := spec_random_selection_candidate p r m
    if p (m + 1) ≥ r ∧ p (m + 1) < p c then m + 1 else c

/-- Unfolding equation of the spec-side selection rule. -/
theorem spec_random_selection_candidate_succ (p : ℕ → ℝ) (r : ℝ) (m : ℕ) :
    spec_random_selection_candidate p r (m + 1) =
      if p (m + 1) ≥ r ∧ p (m + 1) < p (spec_random_selection_candidate p r m) then m + 1
      else spec_random_selection_candidate p r m := rfl

/-- The source's random-policy fold over outcomes `1 .. m` computes the
spec-side candidate together with its probability. -/
theorem do_state_measure_rnd_scan_eq_spec (p : ℕ → ℝ) (r : ℝ) (m : ℕ) :
    (List.range' 1 m).foldl
      (fun sp i => if p i ≥ r ∧ p i < sp.2 then (i, p i) else sp) (0, p 0) =
      (spec_random_selection_candidate p r m,
        p (spec_random_selection_candidate p r m)) := by
  induction m with
  | zero => rfl
  | succ m ih =>
    rw [List.range'_concat, List.foldl_append, ih]
    simp only [List.foldl_cons, List.foldl_nil, one_mul]
    rw [Nat.add_comm 1 m, spec_random_selection_candidate_succ]
    split_ifs with h
    · rfl
    · rfl

/-- C7: a random-policy measure over the `2^q_len` sub-state outcomes,
given the drawn value, returns exactly the outcome selected by the claimed
scan — candidate 0 initially, outcomes `1 .. 2^q_len - 1` in ascending
order, replacement exactly when the outcome's probability is ≥ the drawn
value and strictly below the current candidate's — and the returned
probability is the final candidate's probability. -/
theorem C7_random_selection_rule (r2 : qSim_qreg_state) (k l : ℕ) (coll : Bool)
    (pr_rnd : ℝ) (d : Bool) :
    (do_state_measure r2 (k : ℤ) (l : ℤ) true coll pr_rnd d).m_st =
      spec_random_selection_candidate
        (fun i => get_state_measure_expectation r2 i k l) pr_rnd (2 ^ l - 1) ∧
    (do_state_measure r2 (k : ℤ) (l : ℤ) true coll pr_rnd d).m_exp =
      get_state_measure_expectation r2
        (spec_random_selection_candidate
          (fun i => get_state_measure_expectation r2 i k l) pr_rnd (2 ^ l - 1)) k l := by
  have hneg : ¬((k : ℤ) < 0) := by omega
  unfold do_state_measure
  simp only [if_neg hneg, Int.toNat_natCast, if_true]
  unfold do_state_measure_rnd_scan
  rw [do_state_measure_rnd_scan_eq_spec]
  cases coll <;> simp

/-- The early-exit threshold is positive. -/
theorem QDEV_F_VAL_EPS_pos : 0 < QDEV_F_VAL_EPS := by
  unfold QDEV_F_VAL_EPS
  norm_num

/-- The full-product loop maps a zero accumulator to zero. -/
theorem f_dev_qn_exec_full_go_zero (fn : ℕ) (fform gapn : ℤ) (futype : QASM_F_TYPE)
    (fu_n fuform : ℤ) :
    ∀ (fs : List QDEV_F_FACTOR) (ik jk : ℕ),
      f_dev_qn_exec_full_go fn fform gapn futype fu_n fuform fs ik jk 0 = 0 := by
  intro fs
  induction fs with
  | nil => intro ik jk; rfl
  | cons f rest ih =>
    intro ik jk
    unfold f_dev_qn_exec_full_go
    rw [zero_mul]
    exact ih _ _

/-- If every factor entry dispatched along a list is either exactly zero
or has magnitude at least `c`, and the incoming accumulator is zero or
keeps the product above the threshold, the early-exit loop agrees with the
full product: the exit can only fire on an exactly-zero accumulator. -/
theorem f_dev_qn_exec_go_eq_full (fn : ℕ) (fform gapn : ℤ) (futype : QASM_F_TYPE)
    (fu_n fuform : ℤ) (c : ℝ) (hc0 : 0 < c) (hc1 : c ≤ 1) :
    ∀ (fs : List QDEV_F_FACTOR),
      (∀ f ∈ fs, ∀ ik jk : ℕ,
        f_dev_exec_dispatch fn fform gapn futype fu_n fuform f ik jk = 0 ∨
          c ≤ Complex.abs (f_dev_exec_dispatch fn fform gapn futype fu_n fuform f ik jk)) →
      ∀ (ik jk : ℕ) (acc : ℂ),
        (acc = 0 ∨ QDEV_F_VAL_EPS ≤ Complex.abs acc * c ^ fs.length) →
        f_dev_qn_exec_go fn fform gapn futype fu_n fuform fs ik jk acc =
          f_dev_qn_exec_full_go fn fform gapn futype fu_n fuform fs ik jk acc := by
  intro fs
  induction fs with
  | nil => intro _ ik jk acc _; rfl
  | cons f rest ih =>
    intro hent ik jk acc hacc
    unfold f_dev_qn_exec_go f_dev_qn_exec_full_go
    rcases hacc with hacc | hacc
    · subst hacc
      rw [zero_mul, if_pos (by simpa using QDEV_F_VAL_EPS_pos),
        f_dev_qn_exec_full_go_zero]
    · rcases hent f (List.mem_cons_self f rest) ik jk with hv | hv
      · rw [hv, mul_zero, if_pos (by simpa using QDEV_F_VAL_EPS_pos),
          f_dev_qn_exec_full_go_zero]
      · set v := f_dev_exec_dispatch fn fform gapn futype fu_n fuform f ik jk with hvdef
        have h2 : Complex.abs acc * c ^ (rest.length + 1) ≤
            Complex.abs (acc * v) * c ^ rest.length := by
          calc Complex.abs acc * c ^ (rest.length + 1)
              = Complex.abs acc * c ^ rest.length * c := by ring
            _ ≤ Complex.abs acc * c ^ rest.length * Complex.abs v := by
                apply mul_le_mul_of_nonneg_left hv (by positivity)
            _ = Complex.abs (acc * v) * c ^ rest.length := by rw [map_mul]; ring
        have h3 : QDEV_F_VAL_EPS ≤ Complex.abs (acc * v) := by
          have h4 : Complex.abs (acc * v) * c ^ rest.length ≤ Complex.abs (acc * v) := by
            have hp1 : c ^ rest.length ≤ 1 := pow_le_one₀ hc0.le hc1
            nlinarith [Complex.abs.nonneg (acc * v), pow_nonneg hc0.le rest.length]
          have h5 := hacc
          rw [List.length_cons] at h5
          linarith
        rw [if_neg (not_lt.mpr h3)]
        exact ih (fun g hg => hent g (List.mem_cons_of_mem f hg)) _ _ _
          (Or.inr (by rw [List.length_cons] at hacc; linarith [h2, hacc]))

/-- C6 (amended): the early exit of the tensor evaluator never changes the
returned coefficient provided every factor entry is either exactly zero or
of magnitude at least `c`, for some `0 < c ≤ 1` with `c^tot_f` at least the
threshold `1e-21` — as holds for all the fixed-entry gates; rotation gates
at extreme angles escape every such bound (see the counterexample). -/
theorem C6_early_exit_amended (factors : List QDEV_F_FACTOR) (fn : ℕ)
    (fform gapn : ℤ) (futype : QASM_F_TYPE) (fu_n fuform : ℤ) (c : ℝ)
    (hc0 : 0 < c) (hc1 : c ≤ 1) (he : QDEV_F_VAL_EPS ≤ c ^ factors.length)
    (hent : ∀ f ∈ factors, ∀ ik jk : ℕ,
      f_dev_exec_dispatch fn fform gapn futype fu_n fuform f ik jk = 0 ∨
        c ≤ Complex.abs (f_dev_exec_dispatch fn fform gapn futype fu_n fuform f ik jk))
    (i j : ℕ) :
    f_dev_qn_exec i j factors fn fform gapn futype fu_n fuform =
      f_dev_qn_exec_full i j factors fn fform gapn futype fu_n fuform := by
  unfold f_dev_qn_exec f_dev_qn_exec_full
  apply f_dev_qn_exec_go_eq_full fn fform gapn futype fu_n fuform c hc0 hc1
  · intro f hf
    exact hent f (List.mem_reverse.mp hf)
  · right
    rw [List.length_reverse]
    simpa using he

/-- C6 counterexample: for the rotation-X gate at angle
`2·arccos(1e-22)` gap-filled on a 2-qubit register, the evaluator at
`(i, j) = (0, 2)` exits early with the sub-threshold but nonzero
accumulator `1e-22` and returns it, while the full product over the
remaining identity factor is exactly zero: the early exit changes the
returned coefficient. -/
theorem C6_early_exit_counterexample :
    f_dev_qn_exec 0 2
        (f_dev_gap_filling 4 .Q1_Rx 2 1 0 ⟨1, 2 * Real.arccos 1e-22⟩) 1 0 0 .Q1_I (-1) 0 ≠
      f_dev_qn_exec_full 0 2
        (f_dev_gap_filling 4 .Q1_Rx 2 1 0 ⟨1, 2 * Real.arccos 1e-22⟩) 1 0 0 .Q1_I (-1) 0 := by
  have hfs : f_dev_gap_filling 4 .Q1_Rx 2 1 0 ⟨1, 2 * Real.arccos 1e-22⟩ =
      [⟨.Q1_I, 2, QDEV_F_ARGS_NULL⟩, ⟨.Q1_Rx, 2, ⟨1, 2 * Real.arccos 1e-22⟩⟩] := by
    simp [f_dev_gap_filling, Nat.log2]
  have hval : f_dev_exec_dispatch 1 0 0 .Q1_I (-1) 0
      ⟨.Q1_Rx, 2, ⟨1, 2 * Real.arccos 1e-22⟩⟩ 0 2 = ((1e-22 : ℝ) : ℂ) := by
    unfold f_dev_exec_dispatch
    simp only [QASM_F_TYPE_IS_GATE_1QUBIT, if_true]
    unfold get_functionRefByFtype_gates_1qubit f_dev_q1_rx qdev_f_args_phi
    have harg : 2 * Real.arccos 1e-22 / 2 = Real.arccos 1e-22 := by ring
    simp only []
    rw [if_pos (by norm_num)]
    rw [if_pos (by norm_num)]
    rw [harg, Real.cos_arccos (by norm_num) (by norm_num)]
  have hzero : f_dev_exec_dispatch 1 0 0 .Q1_I (-1) 0 ⟨.Q1_I, 2, QDEV_F_ARGS_NULL⟩ 0 1 =
      0 := by
    unfold f_dev_exec_dispatch
    simp only [QASM_F_TYPE_IS_GATE_1QUBIT, if_true]
    unfold get_functionRefByFtype_gates_1qubit f_dev_q1_i
    norm_num
  rw [hfs]
  unfold f_dev_qn_exec f_dev_qn_exec_full
  simp only [List.reverse_cons, List.reverse_nil, List.nil_append, List.cons_append]
  unfold f_dev_qn_exec_go f_dev_qn_exec_full_go
  rw [one_mul, hval]
  rw [if_pos ?hlt]
  case hlt =>
    rw [Complex.abs_ofReal]
    unfold QDEV_F_VAL_EPS
    rw [abs_of_pos (by norm_num)]
    norm_num
  unfold f_dev_qn_exec_full_go
  simp only [Nat.zero_div, Nat.reduceDiv]
  rw [hzero, mul_zero]
  unfold f_dev_qn_exec_full_go
  intro hcontra
  rw [Complex.ofReal_eq_zero] at hcontra
  norm_num at hcontra

/-- Witness for C6 (amended) at the Pauli-X gate gap-filled on a 2-qubit
register with `c = 1`: all entries are zero or of magnitude one, and the
early-exit evaluator agrees with the full product at `(0, 2)`. -/
theorem C6_early_exit_amended_witness :
    f_dev_qn_exec 0 2 (f_dev_gap_filling 4 .Q1_X 2 1 0 QDEV_F_ARGS_NULL) 1 0 0 .Q1_I (-1) 0 =
      f_dev_qn_exec_full 0 2 (f_dev_gap_filling 4 .Q1_X 2 1 0 QDEV_F_ARGS_NULL)
        1 0 0 .Q1_I (-1) 0 := by
  apply C6_early_exit_amended _ _ _ _ _ _ _ 1 one_pos le_rfl
  · rw [show (f_dev_gap_filling 4 .Q1_X 2 1 0 QDEV_F_ARGS_NULL).length = 2 by
      simp [f_dev_gap_filling, Nat.log2]]
    unfold QDEV_F_VAL_EPS
    norm_num
  · intro f hf ik jk
    have hfs : f_dev_gap_filling 4 .Q1_X 2 1 0 QDEV_F_ARGS_NULL =
        [⟨.Q1_I, 2, QDEV_F_ARGS_NULL⟩, ⟨.Q1_X, 2, QDEV_F_ARGS_NULL⟩] := by
      simp [f_dev_gap_filling, Nat.log2]
    rw [hfs] at hf
    rcases List.mem_cons.mp hf with h | hf2
    · subst h
      by_cases hij : ik % 2 = jk % 2
      · right
        simp [f_dev_exec_dispatch, QASM_F_TYPE_IS_GATE_1QUBIT,
          get_functionRefByFtype_gates_1qubit, f_dev_q1_i, hij]
      · left
        simp [f_dev_exec_dispatch, QASM_F_TYPE_IS_GATE_1QUBIT,
          get_functionRefByFtype_gates_1qubit, f_dev_q1_i, hij]
    · rcases List.mem_cons.mp hf2 with h | hf3
      · subst h
        by_cases hij : jk % 2 = ik % 2
        · left
          simp [f_dev_exec_dispatch, QASM_F_TYPE_IS_GATE_1QUBIT,
            get_functionRefByFtype_gates_1qubit, f_dev_q1_x, hij]
        · right
          simp [f_dev_exec_dispatch, QASM_F_TYPE_IS_GATE_1QUBIT,
            get_functionRefByFtype_gates_1qubit, f_dev_q1_x, hij]
      · exact absurd hf3 (List.not_mem_nil f)

/-- Modelled from the spec: the (i, j) entry of a Kronecker product
`A ⊗ B` where the inner factor `B` has `sB` states. -/
noncomputable def spec_kron_entry (A B : ℕ → ℕ → ℂ) (sB : ℕ) (i j : ℕ) : ℂ :=
  A (i / sB) (j / sB) * B (i % sB) (j % sB)

/-- Modelled from the spec: the identity matrix entry. -/
noncomputable def spec_ident_entry (i j : ℕ) : ℂ := if i = j then 1 else 0

/-- Modelled from the spec: the full-register operator
`I(2^(n-k-1)) ⊗ gate ⊗ I(2^k)` claimed for a 1-qubit gate at offset `k`
with repetition 1 on an `n`-qubit register, as a Kronecker-product
entry function. -/
noncomputable def spec_1q_full_operator (n k : ℕ) (g : ℕ → ℕ → ℂ) : ℕ → ℕ → ℂ :=
  spec_kron_entry (spec_kron_entry spec_ident_entry g 2) spec_ident_entry (2 ^ k)

/-- Closed form of the spec-side operator entry. -/
theorem spec_1q_full_operator_eval (n k : ℕ) (g : ℕ → ℕ → ℂ) (i j : ℕ) :
    spec_1q_full_operator n k g i j =
      (if i / 2 ^ k / 2 = j / 2 ^ k / 2 then 1 else 0) *
        g (i / 2 ^ k % 2) (j / 2 ^ k % 2) *
        (if i % 2 ^ k = j % 2 ^ k then 1 else 0) := by
  unfold spec_1q_full_operator spec_kron_entry spec_ident_entry
  ring

/-- Dispatch of a factor whose type is a 1-qubit gate goes through the
1-qubit pointer table at the reduced indices. -/
theorem f_dev_exec_dispatch_1q (fn : ℕ) (fform gapn : ℤ) (futype : QASM_F_TYPE)
    (fu_n fuform : ℤ) (ft : QASM_F_TYPE) (hft : QASM_F_TYPE_IS_GATE_1QUBIT ft = true)
    (s : ℕ) (args : QDEV_F_ARGS_TYPE) (ik jk : ℕ) :
    f_dev_exec_dispatch fn fform gapn futype fu_n fuform ⟨ft, s, args⟩ ik jk =
      get_functionRefByFtype_gates_1qubit ft (ik % s) (jk % s) args := by
  simp [f_dev_exec_dispatch, hft]

/-- The identity entry through the pointer table. -/
theorem sel1q_ident_entry (a b : ℕ) (args : QDEV_F_ARGS_TYPE) :
    get_functionRefByFtype_gates_1qubit .Q1_I a b args = if a = b then 1 else 0 := rfl

/-- The unit accumulator never triggers the early exit. -/
theorem abs_one_not_lt_eps : ¬ Complex.abs 1 < QDEV_F_VAL_EPS := by
  rw [map_one]
  unfold QDEV_F_VAL_EPS
  norm_num

/-- On a single trailing factor the evaluator loop returns the product
regardless of the early-exit test (both branches coincide). -/
theorem f_dev_qn_exec_go_single (fn : ℕ) (fform gapn : ℤ) (futype : QASM_F_TYPE)
    (fu_n fuform : ℤ) (f : QDEV_F_FACTOR) (ik jk : ℕ) (acc : ℂ) :
    f_dev_qn_exec_go fn fform gapn futype fu_n fuform [f] ik jk acc =
      acc * f_dev_exec_dispatch fn fform gapn futype fu_n fuform f ik jk := by
  simp only [f_dev_qn_exec_go]
  rw [ite_self]

/-- Processing an identity filler first: a mismatch of the reduced
indices zeroes the coefficient (the early exit then fires and returns the
exact zero), a match passes the unit accumulator on. -/
theorem f_dev_qn_exec_go_ident_cons (fn : ℕ) (fform gapn : ℤ) (futype : QASM_F_TYPE)
    (fu_n fuform : ℤ) (L : ℕ) (rest : List QDEV_F_FACTOR) (i j : ℕ) :
    f_dev_qn_exec_go fn fform gapn futype fu_n fuform
        (⟨.Q1_I, L, QDEV_F_ARGS_NULL⟩ :: rest) i j 1 =
      if i % L = j % L then
        f_dev_qn_exec_go fn fform gapn futype fu_n fuform rest (i / L) (j / L) 1
      else 0 := by
  simp only [f_dev_qn_exec_go]
  rw [f_dev_exec_dispatch_1q fn fform gapn futype fu_n fuform .Q1_I rfl, sel1q_ident_entry]
  by_cases hij : i % L = j % L
  · rw [if_pos hij, if_pos hij, mul_one, if_neg abs_one_not_lt_eps]
  · rw [if_neg hij, if_neg hij, mul_zero, if_pos (by simpa using QDEV_F_VAL_EPS_pos)]

/-- Processing a width-2 gate factor whose entries are each zero or at
least the threshold in magnitude, followed by at most one further factor:
the gate entry multiplies out of the loop. -/
theorem f_dev_qn_exec_go_gate_cons (fn : ℕ) (fform gapn : ℤ) (futype : QASM_F_TYPE)
    (fu_n fuform : ℤ) (ft : QASM_F_TYPE) (hft : QASM_F_TYPE_IS_GATE_1QUBIT ft = true)
    (args : QDEV_F_ARGS_TYPE)
    (hg : ∀ a b : ℕ, get_functionRefByFtype_gates_1qubit ft a b args = 0 ∨
      QDEV_F_VAL_EPS ≤ Complex.abs (get_functionRefByFtype_gates_1qubit ft a b args))
    (rest : List QDEV_F_FACTOR)
    (hrest : rest = [] ∨ ∃ f2 : QDEV_F_FACTOR, rest = [f2]) (ik jk : ℕ) :
    f_dev_qn_exec_go fn fform gapn futype fu_n fuform (⟨ft, 2, args⟩ :: rest) ik jk 1 =
      get_functionRefByFtype_gates_1qubit ft (ik % 2) (jk % 2) args *
        f_dev_qn_exec_go fn fform gapn futype fu_n fuform rest (ik / 2) (jk / 2) 1 := by
  simp only [f_dev_qn_exec_go]
  rw [f_dev_exec_dispatch_1q fn fform gapn futype fu_n fuform ft hft, one_mul]
  rcases hg (ik % 2) (jk % 2) with hv | hv
  · rw [hv, if_pos (by rw [map_zero]; exact QDEV_F_VAL_EPS_pos)]
    rcases hrest with h | ⟨f2, h⟩ <;> subst h
    · simp [f_dev_qn_exec_go]
    · rw [f_dev_qn_exec_go_single, zero_mul]
  · rw [if_neg (not_lt.mpr hv)]
    rcases hrest with h | ⟨f2, h⟩ <;> subst h
    · simp [f_dev_qn_exec_go]
    · rw [f_dev_qn_exec_go_single, f_dev_qn_exec_go_single]
      ring

theorem f_dev_gap_filling_1q (qn k : ℕ) (hk : k + 1 ≤ qn) (ft : QASM_F_TYPE)
    (args : QDEV_F_ARGS_TYPE) :
    f_dev_gap_filling (2 ^ qn) ft 2 1 k args =
      (if k + 1 < qn then [⟨.Q1_I, 2 ^ (qn - k - 1), QDEV_F_ARGS_NULL⟩] else []) ++
        [⟨ft, 2, args⟩] ++
        (if 0 < k then [⟨.Q1_I, 2 ^ k, QDEV_F_ARGS_NULL⟩] else []) := by
  have h2 : Nat.log2 2 = 1 := by
    have h21 : (2 : ℕ) = 2 ^ 1 := by norm_num
    rw [h21, nat_log2_two_pow]
  unfold f_dev_gap_filling
  simp only [nat_log2_two_pow, h2, one_mul, Nat.add_sub_cancel]
  rw [if_neg (by
    push_neg
    exact Nat.pow_le_pow_right (by norm_num) (by omega))]
  rw [if_neg (by
    push_neg
    calc (2 : ℕ) = 2 ^ 1 := by norm_num
      _ ≤ 2 ^ qn := Nat.pow_le_pow_right (by norm_num) (by omega))]
  have hiff : k < qn - 1 ↔ k + 1 < qn := by omega
  simp only [List.replicate_one]
  by_cases hmsq : k + 1 < qn
  · rw [if_pos (by omega), if_pos hmsq]
  · rw [if_neg (by omega), if_neg hmsq]

/-- C1 (amended): for every 1-qubit gate type, register qubit count `qn`,
offset `k` with the gate span fitting (`k + 1 ≤ qn`) and all indices
`i, j < 2^qn`, the coefficient computed by gap filling with repetition 1
followed by per-element tensor evaluation equals the
`I(2^(qn-k-1)) ⊗ gate ⊗ I(2^k)` entry — provided each gate entry is
either exactly zero or of magnitude at least the early-exit threshold
`1e-21` (true of every fixed-entry gate; rotation gates at extreme angles
violate it, see the counterexample). -/
theorem C1_1q_gap_tensor_amended (ft : QASM_F_TYPE)
    (hft : QASM_F_TYPE_IS_GATE_1QUBIT ft = true) (args : QDEV_F_ARGS_TYPE)
    (hg : ∀ a b : ℕ, get_functionRefByFtype_gates_1qubit ft a b args = 0 ∨
      QDEV_F_VAL_EPS ≤ Complex.abs (get_functionRefByFtype_gates_1qubit ft a b args))
    (qn k : ℕ) (hk : k + 1 ≤ qn) (i j : ℕ) (hi : i < 2 ^ qn) (hj : j < 2 ^ qn) :
    f_dev_qn_exec i j (f_dev_gap_filling (2 ^ qn) ft 2 1 k args) 1 0 0 .Q1_I (-1) 0 =
      spec_1q_full_operator qn k
        (fun a b => get_functionRefByFtype_gates_1qubit ft a b args) i j := by
  have hdiv : ∀ m : ℕ, m < 2 ^ qn → m / 2 ^ k / 2 < 2 ^ (qn - k - 1) := by
    intro m hm
    rw [Nat.div_div_eq_div_mul]
    have h2k : (2 : ℕ) ^ k * 2 = 2 ^ (k + 1) := by rw [pow_succ]
    rw [h2k, Nat.div_lt_iff_lt_mul (Nat.pos_pow_of_pos (k + 1) (by norm_num))]
    calc m < 2 ^ qn := hm
      _ = 2 ^ (qn - k - 1) * 2 ^ (k + 1) := by
          rw [← pow_add]
          congr 1
          omega
  rw [f_dev_gap_filling_1q qn k hk ft args, spec_1q_full_operator_eval]
  unfold f_dev_qn_exec
  by_cases hmsq : k + 1 < qn
  · by_cases hlsq : 0 < k
    · rw [if_pos hmsq, if_pos hlsq]
      simp only [List.reverse_append, List.reverse_cons, List.reverse_nil, List.nil_append,
        List.cons_append, List.singleton_append]
      rw [f_dev_qn_exec_go_ident_cons]
      by_cases hij : i % 2 ^ k = j % 2 ^ k
      · rw [if_pos hij, if_pos hij]
        rw [f_dev_qn_exec_go_gate_cons 1 0 0 .Q1_I (-1) 0 ft hft args hg _
          (Or.inr ⟨_, rfl⟩)]
        rw [f_dev_qn_exec_go_single,
          f_dev_exec_dispatch_1q 1 0 0 .Q1_I (-1) 0 .Q1_I rfl, sel1q_ident_entry]
        rw [Nat.mod_eq_of_lt (hdiv i hi), Nat.mod_eq_of_lt (hdiv j hj)]
        ring
      · rw [if_neg hij, if_neg hij]
        ring
    · have hk0 : k = 0 := by omega
      subst hk0
      rw [if_pos hmsq, if_neg hlsq]
      simp only [List.append_nil, List.reverse_append, List.reverse_cons, List.reverse_nil,
        List.nil_append, List.cons_append, List.singleton_append]
      rw [f_dev_qn_exec_go_gate_cons 1 0 0 .Q1_I (-1) 0 ft hft args hg _
        (Or.inr ⟨_, rfl⟩)]
      rw [f_dev_qn_exec_go_single,
        f_dev_exec_dispatch_1q 1 0 0 .Q1_I (-1) 0 .Q1_I rfl, sel1q_ident_entry]
      have hbi : i / 2 % 2 ^ (qn - 0 - 1) = i / 2 :=
        Nat.mod_eq_of_lt (by simpa only [pow_zero, Nat.div_one] using hdiv i hi)
      have hbj : j / 2 % 2 ^ (qn - 0 - 1) = j / 2 :=
        Nat.mod_eq_of_lt (by simpa only [pow_zero, Nat.div_one] using hdiv j hj)
      simp only [pow_zero, Nat.div_one, Nat.mod_one, eq_self_iff_true, if_true, hbi, hbj]
      ring
  · have hqn : qn = k + 1 := by omega
    have hz : ∀ m : ℕ, m < 2 ^ qn → m / 2 ^ k / 2 = 0 := by
      intro m hm
      rw [Nat.div_div_eq_div_mul]
      apply Nat.div_eq_of_lt
      calc m < 2 ^ qn := hm
        _ = 2 ^ k * 2 := by rw [hqn, pow_succ]
    by_cases hlsq : 0 < k
    · rw [if_neg hmsq, if_pos hlsq]
      simp only [List.nil_append, List.reverse_append, List.reverse_cons, List.reverse_nil,
        List.cons_append, List.singleton_append]
      rw [f_dev_qn_exec_go_ident_cons]
      by_cases hij : i % 2 ^ k = j % 2 ^ k
      · rw [if_pos hij, if_pos hij]
        rw [f_dev_qn_exec_go_gate_cons 1 0 0 .Q1_I (-1) 0 ft hft args hg _ (Or.inl rfl)]
        rw [hz i hi, hz j hj, if_pos rfl]
        simp only [f_dev_qn_exec_go]
        ring
      · rw [if_neg hij, if_neg hij]
        ring
    · have hk0 : k = 0 := by omega
      subst hk0
      rw [if_neg hmsq, if_neg hlsq]
      simp only [List.nil_append, List.append_nil, List.reverse_cons, List.reverse_nil]
      rw [f_dev_qn_exec_go_gate_cons 1 0 0 .Q1_I (-1) 0 ft hft args hg _ (Or.inl rfl)]
      have hzi : i / 2 ^ 0 / 2 = 0 := hz i hi
      have hzj : j / 2 ^ 0 / 2 = 0 := hz j hj
      simp only [pow_zero, Nat.div_one] at hzi hzj
      simp only [f_dev_qn_exec_go, pow_zero, Nat.div_one, Nat.mod_one, hzi, hzj,
        eq_self_iff_true, if_true]
      ring

/-- C1 counterexample: for the rotation-X gate at angle
`2·arccos(1e-22)` at offset 0 on a 2-qubit register, the evaluator
returns the nonzero sub-threshold value `1e-22` at `(i, j) = (0, 2)`
while the tensor-product operator entry there is exactly zero. -/
theorem C1_1q_gap_tensor_counterexample :
    f_dev_qn_exec 0 2
        (f_dev_gap_filling (2 ^ 2) .Q1_Rx 2 1 0 ⟨1, 2 * Real.arccos 1e-22⟩)
        1 0 0 .Q1_I (-1) 0 ≠
      spec_1q_full_operator 2 0
        (fun a b => get_functionRefByFtype_gates_1qubit .Q1_Rx a b
          ⟨1, 2 * Real.arccos 1e-22⟩) 0 2 := by
  have hrhs : spec_1q_full_operator 2 0
      (fun a b => get_functionRefByFtype_gates_1qubit .Q1_Rx a b
        ⟨1, 2 * Real.arccos 1e-22⟩) 0 2 = 0 := by
    rw [spec_1q_full_operator_eval]
    norm_num
  rw [hrhs]
  have hfs : f_dev_gap_filling (2 ^ 2) .Q1_Rx 2 1 0 ⟨1, 2 * Real.arccos 1e-22⟩ =
      [⟨.Q1_I, 2, QDEV_F_ARGS_NULL⟩, ⟨.Q1_Rx, 2, ⟨1, 2 * Real.arccos 1e-22⟩⟩] := by
    simp [f_dev_gap_filling, Nat.log2]
  have hval : f_dev_exec_dispatch 1 0 0 .Q1_I (-1) 0
      ⟨.Q1_Rx, 2, ⟨1, 2 * Real.arccos 1e-22⟩⟩ 0 2 = ((1e-22 : ℝ) : ℂ) := by
    unfold f_dev_exec_dispatch
    simp only [QASM_F_TYPE_IS_GATE_1QUBIT, if_true]
    unfold get_functionRefByFtype_gates_1qubit f_dev_q1_rx qdev_f_args_phi
    have harg : 2 * Real.arccos 1e-22 / 2 = Real.arccos 1e-22 := by ring
    simp only []
    rw [if_pos (by norm_num)]
    rw [if_pos (by norm_num)]
    rw [harg, Real.cos_arccos (by norm_num) (by norm_num)]
  rw [hfs]
  unfold f_dev_qn_exec
  simp only [List.reverse_cons, List.reverse_nil, List.nil_append, List.cons_append]
  unfold f_dev_qn_exec_go
  rw [one_mul, hval]
  rw [if_pos ?hlt]
  case hlt =>
    rw [Complex.abs_ofReal]
    unfold QDEV_F_VAL_EPS
    rw [abs_of_pos (by norm_num)]
    norm_num
  intro hcontra
  rw [Complex.ofReal_eq_zero] at hcontra
  norm_num at hcontra

/-- Witness for C1 (amended): the Pauli-X gate at offset 1 on a 2-qubit
register, at `(i, j) = (1, 3)`. -/
theorem C1_1q_gap_tensor_amended_witness :
    f_dev_qn_exec 1 3 (f_dev_gap_filling (2 ^ 2) .Q1_X 2 1 1 QDEV_F_ARGS_NULL)
        1 0 0 .Q1_I (-1) 0 =
      spec_1q_full_operator 2 1
        (fun a b => get_functionRefByFtype_gates_1qubit .Q1_X a b QDEV_F_ARGS_NULL) 1 3 := by
  apply C1_1q_gap_tensor_amended .Q1_X rfl QDEV_F_ARGS_NULL ?hg 2 1 (by norm_num)
    1 3 (by norm_num) (by norm_num)
  case hg =>
    intro a b
    by_cases hij : b = a
    · left
      simp [get_functionRefByFtype_gates_1qubit, f_dev_q1_x, hij]
    · right
      simp [get_functionRefByFtype_gates_1qubit, f_dev_q1_x, hij]
      unfold QDEV_F_VAL_EPS
      norm_num

theorem sqrt2C_mul_self : ((Real.sqrt 2 : ℝ) : ℂ) * ((Real.sqrt 2 : ℝ) : ℂ) = 2 := by
  rw [← Complex.ofReal_mul, Real.mul_self_sqrt (by norm_num)]
  norm_num

theorem sqrt2C_ne_zero : ((Real.sqrt 2 : ℝ) : ℂ) ≠ 0 := by
  rw [Complex.ofReal_ne_zero]
  exact ne_of_gt (Real.sqrt_pos.mpr (by norm_num))

theorem habsH_ge_eps : ∀ a b : ℕ, QDEV_F_VAL_EPS ≤
    Complex.abs (get_functionRefByFtype_gates_1qubit .Q1_H a b ⟨0, 0⟩) := by
  intro a b
  have hs2 : Real.sqrt 2 ^ 2 = 2 := Real.sq_sqrt (by norm_num)
  have hspos : 0 < Real.sqrt 2 := Real.sqrt_pos.mpr (by norm_num)
  have hsle : Real.sqrt 2 ≤ 2 := by nlinarith
  have habs : Complex.abs (get_functionRefByFtype_gates_1qubit .Q1_H a b ⟨0, 0⟩) =
      1 / Real.sqrt 2 := by
    show Complex.abs (f_dev_q1_h a b ⟨0, 0⟩) = 1 / Real.sqrt 2
    unfold f_dev_q1_h
    rw [map_div₀]
    by_cases hb : b < 1
    · rw [if_pos hb, map_one, Complex.abs_ofReal, abs_of_pos hspos]
    · rw [if_neg hb, Complex.abs_ofReal, Complex.abs_ofReal, abs_of_pos hspos]
      rcases Nat.even_or_odd a with ha | ha
      · rw [ha.neg_one_pow]
        norm_num
      · rw [ha.neg_one_pow]
        norm_num
  rw [habs]
  unfold QDEV_F_VAL_EPS
  rw [le_div_iff₀ hspos]
  nlinarith

theorem hH_col0 : ∀ a : ℕ, get_functionRefByFtype_gates_1qubit .Q1_H a 0 ⟨0, 0⟩ =
    1 / ((Real.sqrt 2 : ℝ) : ℂ) := by
  intro a
  show f_dev_q1_h a 0 ⟨0, 0⟩ = _
  unfold f_dev_q1_h
  rw [if_pos (by norm_num)]

theorem hfsH : f_dev_gap_filling 8 .Q1_H 2 2 2 (fargs_to_dev_ptr_array []) =
    [⟨.Q1_H, 2, ⟨0, 0⟩⟩, ⟨.Q1_H, 2, ⟨0, 0⟩⟩, ⟨.Q1_I, 4, QDEV_F_ARGS_NULL⟩] := by
  simp [f_dev_gap_filling, fargs_to_dev_ptr_array, Nat.log2, QDEV_F_ARGS_NULL,
    List.replicate]

theorem hexH0 : f_dev_qn_exec 0 0
    [⟨.Q1_H, 2, ⟨0, 0⟩⟩, ⟨.Q1_H, 2, ⟨0, 0⟩⟩, ⟨.Q1_I, 4, QDEV_F_ARGS_NULL⟩]
    1 0 0 .Q1_I (-1) 0 = 1 / 2 := by
  unfold f_dev_qn_exec
  simp only [List.reverse_cons, List.reverse_nil, List.nil_append, List.cons_append]
  rw [f_dev_qn_exec_go_ident_cons, if_pos rfl]
  rw [f_dev_qn_exec_go_gate_cons 1 0 0 .Q1_I (-1) 0 .Q1_H rfl ⟨0, 0⟩
    (fun a b => Or.inr (habsH_ge_eps a b)) _ (Or.inr ⟨_, rfl⟩)]
  rw [f_dev_qn_exec_go_single, f_dev_exec_dispatch_1q 1 0 0 .Q1_I (-1) 0 .Q1_H rfl]
  norm_num [hH_col0]
  rw [← mul_inv, sqrt2C_mul_self]
  norm_num

theorem hexH4 : f_dev_qn_exec 4 0
    [⟨.Q1_H, 2, ⟨0, 0⟩⟩, ⟨.Q1_H, 2, ⟨0, 0⟩⟩, ⟨.Q1_I, 4, QDEV_F_ARGS_NULL⟩]
    1 0 0 .Q1_I (-1) 0 = 1 / 2 := by
  unfold f_dev_qn_exec
  simp only [List.reverse_cons, List.reverse_nil, List.nil_append, List.cons_append]
  rw [f_dev_qn_exec_go_ident_cons, if_pos rfl]
  rw [f_dev_qn_exec_go_gate_cons 1 0 0 .Q1_I (-1) 0 .Q1_H rfl ⟨0, 0⟩
    (fun a b => Or.inr (habsH_ge_eps a b)) _ (Or.inr ⟨_, rfl⟩)]
  rw [f_dev_qn_exec_go_single, f_dev_exec_dispatch_1q 1 0 0 .Q1_I (-1) 0 .Q1_H rfl]
  norm_num [hH_col0]
  rw [← mul_inv, sqrt2C_mul_self]
  norm_num

theorem seqH_eval (idx : ℕ) (hidx : idx < 8) :
    sequential_prod_fxi (fun i => if i = 0 then (1 : ℂ) else 0) idx 8
      [⟨.Q1_H, 2, ⟨0, 0⟩⟩, ⟨.Q1_H, 2, ⟨0, 0⟩⟩, ⟨.Q1_I, 4, QDEV_F_ARGS_NULL⟩]
      (2 ^ (1 * 2 + 2)) (2 ^ 2) 1 0 0 .Q1_I (-1) 0 =
      if 0 % 2 ^ 2 = idx % 2 ^ 2 then
        f_dev_qn_exec idx 0
          [⟨.Q1_H, 2, ⟨0, 0⟩⟩, ⟨.Q1_H, 2, ⟨0, 0⟩⟩, ⟨.Q1_I, 4, QDEV_F_ARGS_NULL⟩]
          1 0 0 .Q1_I (-1) 0
      else 0 := by
  unfold sequential_prod_fxi
  dsimp only
  have hd : idx / 2 ^ (1 * 2 + 2) = 0 := Nat.div_eq_of_lt (by omega)
  rw [hd]
  have hIcc : Finset.Icc (0 * 2 ^ (1 * 2 + 2))
      (min (8 - 1) (0 * 2 ^ (1 * 2 + 2) + 2 ^ (1 * 2 + 2) - 1)) = Finset.range 8 := by
    norm_num
    decide
  rw [hIcc]
  rw [Finset.sum_range_succ, Finset.sum_range_succ, Finset.sum_range_succ,
    Finset.sum_range_succ, Finset.sum_range_succ, Finset.sum_range_succ,
    Finset.sum_range_succ, Finset.sum_range_succ, Finset.sum_range_zero]
  norm_num

/-- C2: the norm-1 invariant is NOT preserved by every validated transform.
On the 3-qubit register in basis state with coefficient 1 at index 0
(squared-magnitude sum 1), the Hadamard descriptor fsize = 2, frep = 2,
flsq = 2 passes every validation check and the transform reports success,
yet the new state's squared-magnitude sum is 1/2: the gap-filling span
check lets fmsq = register_qubit_count through and the factor sizes
multiply to 16 on an 8-state register. -/
theorem C2_transform_norm_bug :
    (qSim_qreg_transform
        ⟨3, fun i => if i = 0 then 1 else 0, fun _ => 0, fun i => if i = 0 then 1 else 0, true⟩
        .Q1_H 2 2 2 QREG_F_INDEX_RANGE_NULL QREG_F_INDEX_RANGE_NULL [] .NULL
        QREG_F_INDEX_RANGE_NULL QREG_F_INDEX_RANGE_NULL []).1 = true ∧
    (∑ i in Finset.range 8,
      Complex.normSq (if i = 0 then (1 : ℂ) else 0)) = 1 ∧
    (∑ i in Finset.range 8,
      Complex.normSq ((qSim_qreg_transform
        ⟨3, fun i => if i = 0 then 1 else 0, fun _ => 0, fun i => if i = 0 then 1 else 0, true⟩
        .Q1_H 2 2 2 QREG_F_INDEX_RANGE_NULL QREG_F_INDEX_RANGE_NULL [] .NULL
        QREG_F_INDEX_RANGE_NULL QREG_F_INDEX_RANGE_NULL []).2.devStates_x i)) = 1 / 2 := by
  have hcap : qSim_qreg_transform_capacity_check 2 2 2
      (qSim_qreg_state.totStates
        ⟨3, fun i => if i = 0 then 1 else 0, fun _ => 0, fun i => if i = 0 then 1 else 0,
          true⟩) = .ok := by
    simp [qSim_qreg_transform_capacity_check, qSim_qreg_state.totStates]
  have htr : (qSim_qreg_transform
      ⟨3, fun i => if i = 0 then 1 else 0, fun _ => 0, fun i => if i = 0 then 1 else 0, true⟩
      .Q1_H 2 2 2 QREG_F_INDEX_RANGE_NULL QREG_F_INDEX_RANGE_NULL [] .NULL
      QREG_F_INDEX_RANGE_NULL QREG_F_INDEX_RANGE_NULL []) =
      (true, { totQubits := 3,
               devStates_x := fun idx =>
                 if idx < 8 then
                   sequential_prod_fxi (fun i => if i = 0 then (1 : ℂ) else 0) idx 8
                     [⟨.Q1_H, 2, ⟨0, 0⟩⟩, ⟨.Q1_H, 2, ⟨0, 0⟩⟩, ⟨.Q1_I, 4, QDEV_F_ARGS_NULL⟩]
                     (2 ^ (1 * 2 + 2)) (2 ^ 2) 1 0 0 .Q1_I (-1) 0
                 else (0 : ℂ),
               devStates_y := fun i => if i = 0 then 1 else 0,
               states_x := fun i => if i = 0 then 1 else 0,
               syncFlag := false }) := by
    unfold qSim_qreg_transform
    rw [hcap]
    simp only [QASM_F_TYPE_IS_GATE_1QUBIT, if_true]
    unfold dev_qreg_apply_function_gate_1qubit
    dsimp only
    rw [show (qSim_qreg_state.totStates
        ⟨3, fun i => if i = 0 then 1 else 0, fun _ => 0, fun i => if i = 0 then 1 else 0,
          true⟩) = 8 from rfl]
    rw [hfsH]
    simp only [List.length_cons, List.length_nil]
    norm_num
  rw [htr]
  refine ⟨rfl, ?_, ?_⟩
  · rw [Finset.sum_range_succ, Finset.sum_range_succ, Finset.sum_range_succ,
      Finset.sum_range_succ, Finset.sum_range_succ, Finset.sum_range_succ,
      Finset.sum_range_succ, Finset.sum_range_succ, Finset.sum_range_zero]
    norm_num
  · rw [Finset.sum_range_succ, Finset.sum_range_succ, Finset.sum_range_succ,
      Finset.sum_range_succ, Finset.sum_range_succ, Finset.sum_range_succ,
      Finset.sum_range_succ, Finset.sum_range_succ, Finset.sum_range_zero]
    dsimp only
    rw [if_pos (by norm_num : (0 : ℕ) < 8), if_pos (by norm_num : (1 : ℕ) < 8),
      if_pos (by norm_num : (2 : ℕ) < 8), if_pos (by norm_num : (3 : ℕ) < 8),
      if_pos (by norm_num : (4 : ℕ) < 8), if_pos (by norm_num : (5 : ℕ) < 8),
      if_pos (by norm_num : (6 : ℕ) < 8), if_pos (by norm_num : (7 : ℕ) < 8)]
    rw [seqH_eval 0 (by norm_num), seqH_eval 1 (by norm_num), seqH_eval 2 (by norm_num),
      seqH_eval 3 (by norm_num), seqH_eval 4 (by norm_num), seqH_eval 5 (by norm_num),
      seqH_eval 6 (by norm_num), seqH_eval 7 (by norm_num)]
    norm_num [hexH0, hexH4]

/-- The column of the single unit entry in row `a` of the controlled-X
matrix: the permutation the CX block applies to the four joint sub-states
of the control/target pair, in the direct (`c = 0`) and inverse form. -/
def cx_perm_col (c : ℤ) (a : ℕ) : ℕ :=
  if c = 0 then (if a = 2 then 3 else if a = 3 then 2 else a)
  else (if a = 1 then 3 else if a = 3 then 1 else a)

/-- The full-register index permutation realised by one CX core transform
at LSQ stride `L`: the pair digit (base 4) at weight `L` moves through
`cx_perm_col`, the digits above and below stay. -/
def cx_perm (c : ℤ) (L : ℕ) (idx : ℕ) : ℕ :=
  idx / (4 * L) * (4 * L) + cx_perm_col c (idx / L % 4) * L + idx % L

theorem cx_perm_col_lt (c : ℤ) (a : ℕ) (ha : a < 4) : cx_perm_col c a < 4 := by
  unfold cx_perm_col
  split_ifs <;> omega

/-- Entry table of the controlled-X factor: row `a` has a single unit
entry, at column `cx_perm_col c a`, in both the direct and the inverse
form. -/
theorem f_dev_q2_cx_entry (c : ℤ) (hc : c = 0 ∨ c = 1) (futype : QASM_F_TYPE)
    (args : QDEV_F_ARGS_TYPE) (a b : ℕ) (ha : a < 4) (hb : b < 4) :
    f_dev_q2_cx a b c futype args = if b = cx_perm_col c a then 1 else 0 := by
  rcases hc with rfl | rfl <;> interval_cases a <;> interval_cases b <;>
    norm_num [f_dev_q2_cx, f_dev_q2_cu, get_functionRefByFtype_gates_1qubit, f_dev_q1_x,
      cx_perm_col]

/-- Dispatch of a controlled-X factor goes through the 2-qubit pointer
table to the CX entry function. -/
theorem f_dev_exec_dispatch_cx (fn : ℕ) (fform gapn : ℤ) (futype : QASM_F_TYPE)
    (fu_n fuform : ℤ) (s : ℕ) (args : QDEV_F_ARGS_TYPE) (ik jk : ℕ) :
    f_dev_exec_dispatch fn fform gapn futype fu_n fuform ⟨.Q2_CX, s, args⟩ ik jk =
      f_dev_q2_cx (ik % s) (jk % s) fform futype args := by
  simp [f_dev_exec_dispatch, QASM_F_TYPE_IS_GATE_1QUBIT, QASM_F_TYPE_IS_GATE_2QUBIT,
    get_functionRefByFtype_gates_2qubit]

/-- Processing a width-4 controlled-X factor followed by at most one
further factor: the 0/1 entry multiplies out of the loop (a zero entry
fires the early exit with an exact zero). -/
theorem f_dev_qn_exec_go_cx_cons (fn : ℕ) (fform gapn : ℤ)
    (hc : fform = 0 ∨ fform = 1) (futype : QASM_F_TYPE) (fu_n fuform : ℤ)
    (args : QDEV_F_ARGS_TYPE) (rest : List QDEV_F_FACTOR)
    (hrest : rest = [] ∨ ∃ f2 : QDEV_F_FACTOR, rest = [f2]) (ik jk : ℕ) :
    f_dev_qn_exec_go fn fform gapn futype fu_n fuform (⟨.Q2_CX, 4, args⟩ :: rest) ik jk 1 =
      (if jk % 4 = cx_perm_col fform (ik % 4) then 1 else 0) *
        f_dev_qn_exec_go fn fform gapn futype fu_n fuform rest (ik / 4) (jk / 4) 1 := by
  simp only [f_dev_qn_exec_go]
  rw [f_dev_exec_dispatch_cx, one_mul,
    f_dev_q2_cx_entry fform hc futype args _ _ (Nat.mod_lt _ (by norm_num))
      (Nat.mod_lt _ (by norm_num))]
  by_cases hm : jk % 4 = cx_perm_col fform (ik % 4)
  · rw [if_pos hm, if_neg abs_one_not_lt_eps]
    rcases hrest with h | ⟨f2, h⟩ <;> subst h
    · simp [f_dev_qn_exec_go]
    · rw [f_dev_qn_exec_go_single]
      ring
  · rw [if_neg hm, if_pos (by rw [map_zero]; exact QDEV_F_VAL_EPS_pos)]
    rcases hrest with h | ⟨f2, h⟩ <;> subst h
    · simp [f_dev_qn_exec_go]
    · rw [f_dev_qn_exec_go_single]
      ring

/-- Gap filling for a width-4 factor with repetition 1 at LSQ offset `k`
on a `2^qn`-state register, when the two-qubit span fits. -/
theorem f_dev_gap_filling_cx (qn k : ℕ) (hk : k + 2 ≤ qn) (ft : QASM_F_TYPE)
    (args : QDEV_F_ARGS_TYPE) :
    f_dev_gap_filling (2 ^ qn) ft 4 1 k args =
      (if k + 2 < qn then [⟨.Q1_I, 2 ^ (qn - k - 2), QDEV_F_ARGS_NULL⟩] else []) ++
        [⟨ft, 4, args⟩] ++
        (if 0 < k then [⟨.Q1_I, 2 ^ k, QDEV_F_ARGS_NULL⟩] else []) := by
  have h4 : Nat.log2 4 = 2 := by
    have h42 : (4 : ℕ) = 2 ^ 2 := by norm_num
    rw [h42, nat_log2_two_pow]
  unfold f_dev_gap_filling
  simp only [nat_log2_two_pow, h4]
  have hm : k + 2 * 1 - 1 = k + 1 := by omega
  rw [hm]
  rw [if_neg (by
    push_neg
    exact Nat.pow_le_pow_right (by norm_num) (by omega))]
  rw [if_neg (by
    push_neg
    calc (4 : ℕ) = 2 ^ 2 := by norm_num
      _ ≤ 2 ^ qn := Nat.pow_le_pow_right (by norm_num) (by omega))]
  simp only [List.replicate_one]
  have hsub : qn - (k + 1) - 1 = qn - k - 2 := by omega
  by_cases hmsq : k + 2 < qn
  · rw [if_pos (by omega), if_pos hmsq, hsub]
  · rw [if_neg (by omega), if_neg hmsq]

/-- Per-element evaluation over the CX gap-filled factor list: the
coefficient is `1` exactly when the LSQ digits agree, the pair digit of
the column is the CX image of the row's pair digit, and the MSQ digits
agree; otherwise `0`. -/
theorem f_dev_qn_exec_cx (qn k : ℕ) (hk : k + 2 ≤ qn) (fn : ℕ) (c gapn : ℤ)
    (hc : c = 0 ∨ c = 1) (futype : QASM_F_TYPE) (fu_n fuform : ℤ)
    (args : QDEV_F_ARGS_TYPE) (idx j : ℕ) (hidx : idx < 2 ^ qn) (hj : j < 2 ^ qn) :
    f_dev_qn_exec idx j
        ((if k + 2 < qn then [⟨.Q1_I, 2 ^ (qn - k - 2), QDEV_F_ARGS_NULL⟩] else []) ++
          [⟨.Q2_CX, 4, args⟩] ++
          (if 0 < k then [⟨.Q1_I, 2 ^ k, QDEV_F_ARGS_NULL⟩] else []))
        fn c gapn futype fu_n fuform =
      if idx % 2 ^ k = j % 2 ^ k ∧ j / 2 ^ k % 4 = cx_perm_col c (idx / 2 ^ k % 4) ∧
          idx / (4 * 2 ^ k) = j / (4 * 2 ^ k) then 1 else 0 := by
  have h4L : (4 : ℕ) * 2 ^ k = 2 ^ (k + 2) := by
    rw [pow_succ, pow_succ]
    ring
  have hdd : ∀ m : ℕ, m / 2 ^ k / 4 = m / (4 * 2 ^ k) := by
    intro m
    rw [Nat.div_div_eq_div_mul, mul_comm]
  have hdiv : ∀ m : ℕ, m < 2 ^ qn → m / (4 * 2 ^ k) < 2 ^ (qn - k - 2) := by
    intro m hm
    rw [Nat.div_lt_iff_lt_mul (by positivity)]
    calc m < 2 ^ qn := hm
      _ = 2 ^ (qn - k - 2) * (4 * 2 ^ k) := by
          rw [h4L, ← pow_add]
          congr 1
          omega
  unfold f_dev_qn_exec
  by_cases hmsq : k + 2 < qn
  · by_cases hlsq : 0 < k
    · rw [if_pos hmsq, if_pos hlsq]
      simp only [List.reverse_append, List.reverse_cons, List.reverse_nil, List.nil_append,
        List.cons_append, List.singleton_append]
      rw [f_dev_qn_exec_go_ident_cons]
      by_cases hij : idx % 2 ^ k = j % 2 ^ k
      · rw [if_pos hij]
        rw [f_dev_qn_exec_go_cx_cons fn c gapn hc futype fu_n fuform args _
          (Or.inr ⟨_, rfl⟩)]
        rw [f_dev_qn_exec_go_single,
          f_dev_exec_dispatch_1q fn c gapn futype fu_n fuform .Q1_I rfl, sel1q_ident_entry]
        rw [hdd idx, hdd j, Nat.mod_eq_of_lt (hdiv idx hidx), Nat.mod_eq_of_lt (hdiv j hj)]
        by_cases hQ : j / 2 ^ k % 4 = cx_perm_col c (idx / 2 ^ k % 4) <;>
          by_cases hR : idx / (4 * 2 ^ k) = j / (4 * 2 ^ k) <;>
          simp [hij, hQ, hR]
      · rw [if_neg hij, if_neg (fun h => hij h.1)]
    · have hk0 : k = 0 := by omega
      subst hk0
      rw [if_pos hmsq, if_neg hlsq]
      simp only [List.append_nil, List.reverse_append, List.reverse_cons, List.reverse_nil,
        List.nil_append, List.cons_append, List.singleton_append]
      rw [f_dev_qn_exec_go_cx_cons fn c gapn hc futype fu_n fuform args _
        (Or.inr ⟨_, rfl⟩)]
      rw [f_dev_qn_exec_go_single,
        f_dev_exec_dispatch_1q fn c gapn futype fu_n fuform .Q1_I rfl, sel1q_ident_entry]
      simp only [pow_zero, Nat.div_one, Nat.mod_one, mul_one, Nat.sub_zero, eq_self_iff_true,
        true_and]
      have hdi : idx / 4 % 2 ^ (qn - 2) = idx / 4 :=
        Nat.mod_eq_of_lt (by simpa using hdiv idx hidx)
      have hdj : j / 4 % 2 ^ (qn - 2) = j / 4 :=
        Nat.mod_eq_of_lt (by simpa using hdiv j hj)
      simp only [hdi, hdj]
      by_cases hQ : j % 4 = cx_perm_col c (idx % 4) <;>
        by_cases hR : idx / 4 = j / 4 <;>
        simp [hQ, hR]
  · have hqn : qn = k + 2 := by omega
    have hz : ∀ m : ℕ, m < 2 ^ qn → m / (4 * 2 ^ k) = 0 := by
      intro m hm
      apply Nat.div_eq_of_lt
      rw [h4L, ← hqn]
      exact hm
    by_cases hlsq : 0 < k
    · rw [if_neg hmsq, if_pos hlsq]
      simp only [List.nil_append, List.reverse_append, List.reverse_cons, List.reverse_nil,
        List.cons_append, List.singleton_append]
      rw [f_dev_qn_exec_go_ident_cons]
      by_cases hij : idx % 2 ^ k = j % 2 ^ k
      · rw [if_pos hij]
        rw [f_dev_qn_exec_go_cx_cons fn c gapn hc futype fu_n fuform args _ (Or.inl rfl)]
        simp only [f_dev_qn_exec_go]
        rw [hz idx hidx, hz j hj]
        by_cases hQ : j / 2 ^ k % 4 = cx_perm_col c (idx / 2 ^ k % 4) <;>
          simp [hij, hQ]
      · rw [if_neg hij, if_neg (fun h => hij h.1)]
    · have hk0 : k = 0 := by omega
      subst hk0
      rw [if_neg hmsq, if_neg hlsq]
      simp only [List.nil_append, List.append_nil, List.reverse_cons, List.reverse_nil]
      rw [f_dev_qn_exec_go_cx_cons fn c gapn hc futype fu_n fuform args _ (Or.inl rfl)]
      simp only [f_dev_qn_exec_go]
      rw [hz idx hidx, hz j hj]
      simp only [pow_zero, Nat.div_one, Nat.mod_one, eq_self_iff_true, true_and]
      by_cases hQ : j % 4 = cx_perm_col c (idx % 4) <;> simp [hQ]

theorem nat_digits_mod (L a b r : ℕ) (hr : r < L) :
    (a * (4 * L) + b * L + r) % L = r := by
  have h : a * (4 * L) + b * L + r = L * (a * 4 + b) + r := by ring
  rw [h, Nat.mul_add_mod, Nat.mod_eq_of_lt hr]

theorem nat_digits_div_mod (L a b r : ℕ) (hL : 0 < L) (hb : b < 4) (hr : r < L) :
    (a * (4 * L) + b * L + r) / L % 4 = b := by
  have h : a * (4 * L) + b * L + r = r + L * (4 * a + b) := by ring
  rw [h, Nat.add_mul_div_left _ _ hL, Nat.div_eq_of_lt hr, Nat.zero_add, Nat.mul_add_mod,
    Nat.mod_eq_of_lt hb]

theorem nat_digits_div4L (L a b r : ℕ) (hb : b < 4) (hr : r < L) :
    (a * (4 * L) + b * L + r) / (4 * L) = a := by
  have hblt : b * L + r < 4 * L := by
    calc b * L + r < b * L + L := by omega
      _ = (b + 1) * L := by ring
      _ ≤ 4 * L := Nat.mul_le_mul_right L (by omega)
  have h : a * (4 * L) + b * L + r = (b * L + r) + (4 * L) * a := by ring
  rw [h, Nat.add_mul_div_left _ _ (by omega), Nat.div_eq_of_lt hblt, Nat.zero_add]

/-- `cx_perm` acts on the canonical digit decomposition by sending the
pair digit through `cx_perm_col`. -/
theorem cx_perm_digits (c : ℤ) (L : ℕ) (hL : 0 < L) (a b r : ℕ) (hb : b < 4)
    (hr : r < L) :
    cx_perm c L (a * (4 * L) + b * L + r) = a * (4 * L) + cx_perm_col c b * L + r := by
  unfold cx_perm
  rw [nat_digits_mod L a b r hr, nat_digits_div_mod L a b r hL hb hr,
    nat_digits_div4L L a b r hb hr]

/-- Mixed-radix reconstruction at strides `L` and `4L`. -/
theorem nat_digits_recon (L : ℕ) (hL : 0 < L) (m : ℕ) :
    m / (4 * L) * (4 * L) + m / L % 4 * L + m % L = m := by
  have h1 : m / L / 4 = m / (4 * L) := by
    rw [Nat.div_div_eq_div_mul, mul_comm]
  calc m / (4 * L) * (4 * L) + m / L % 4 * L + m % L
      = (4 * (m / L / 4) + m / L % 4) * L + m % L := by
        rw [h1]
        ring
    _ = m / L * L + m % L := by rw [Nat.div_add_mod (m / L) 4]
    _ = L * (m / L) + m % L := by ring
    _ = m := Nat.div_add_mod m L

/-- `cx_perm` preserves the register index range. -/
theorem cx_perm_lt (c : ℤ) (qn k : ℕ) (hk : k + 2 ≤ qn) (idx : ℕ)
    (hidx : idx < 2 ^ qn) : cx_perm c (2 ^ k) idx < 2 ^ qn := by
  have hL : 0 < (2 : ℕ) ^ k := Nat.pos_pow_of_pos _ (by norm_num)
  have hcol : cx_perm_col c (idx / 2 ^ k % 4) ≤ 3 := by
    have := cx_perm_col_lt c (idx / 2 ^ k % 4) (Nat.mod_lt _ (by norm_num))
    omega
  have hcolL : cx_perm_col c (idx / 2 ^ k % 4) * 2 ^ k ≤ 3 * 2 ^ k :=
    Nat.mul_le_mul_right _ hcol
  have hmod : idx % 2 ^ k < 2 ^ k := Nat.mod_lt _ hL
  have hdiv : idx / (4 * 2 ^ k) < 2 ^ (qn - k - 2) := by
    rw [Nat.div_lt_iff_lt_mul (by positivity)]
    calc idx < 2 ^ qn := hidx
      _ = 2 ^ (qn - k - 2) * (4 * 2 ^ k) := by
          rw [show (4 : ℕ) * 2 ^ k = 2 ^ (k + 2) by
            rw [pow_succ, pow_succ]
            ring, ← pow_add]
          congr 1
          omega
  have hhead : idx / (4 * 2 ^ k) * (4 * 2 ^ k) + 4 * 2 ^ k ≤ 2 ^ qn := by
    have h1 : (idx / (4 * 2 ^ k) + 1) * (4 * 2 ^ k) ≤ 2 ^ (qn - k - 2) * (4 * 2 ^ k) :=
      Nat.mul_le_mul_right _ (by omega)
    rw [add_mul, one_mul] at h1
    calc idx / (4 * 2 ^ k) * (4 * 2 ^ k) + 4 * 2 ^ k
        ≤ 2 ^ (qn - k - 2) * (4 * 2 ^ k) := h1
      _ = 2 ^ qn := by
          rw [show (4 : ℕ) * 2 ^ k = 2 ^ (k + 2) by
            rw [pow_succ, pow_succ]
            ring, ← pow_add]
          congr 1
          omega
  unfold cx_perm
  omega

/-- The pair-digit maps of the unwrapped swap sequence applied twice
(direct, inverse, direct, direct, inverse, direct) compose to the
identity on the four pair values. -/
theorem cx_perm_col_six (b : ℕ) (hb : b < 4) :
    cx_perm_col 0 (cx_perm_col 1 (cx_perm_col 0 (cx_perm_col 0
      (cx_perm_col 1 (cx_perm_col 0 b))))) = b := by
  interval_cases b <;> decide

/-- The index permutations of the six CX transforms of a doubled swap
sequence compose to the identity on register indices. -/
theorem cx_perm_six (qn k : ℕ) (hk : k + 2 ≤ qn) (idx : ℕ) (hidx : idx < 2 ^ qn) :
    cx_perm 0 (2 ^ k) (cx_perm 1 (2 ^ k) (cx_perm 0 (2 ^ k) (cx_perm 0 (2 ^ k)
      (cx_perm 1 (2 ^ k) (cx_perm 0 (2 ^ k) idx))))) = idx := by
  have hL : 0 < (2 : ℕ) ^ k := Nat.pos_pow_of_pos _ (by norm_num)
  have hb : idx / 2 ^ k % 4 < 4 := Nat.mod_lt _ (by norm_num)
  have hr : idx % 2 ^ k < 2 ^ k := Nat.mod_lt _ hL
  have hb1 := cx_perm_col_lt 0 _ hb
  have hb2 := cx_perm_col_lt 1 _ hb1
  have hb3 := cx_perm_col_lt 0 _ hb2
  have hb4 := cx_perm_col_lt 0 _ hb3
  have hb5 := cx_perm_col_lt 1 _ hb4
  conv_lhs => rw [← nat_digits_recon (2 ^ k) hL idx]
  rw [cx_perm_digits 0 _ hL _ _ _ hb hr, cx_perm_digits 1 _ hL _ _ _ hb1 hr,
    cx_perm_digits 0 _ hL _ _ _ hb2 hr, cx_perm_digits 0 _ hL _ _ _ hb3 hr,
    cx_perm_digits 1 _ hL _ _ _ hb4 hr, cx_perm_digits 0 _ hL _ _ _ hb5 hr,
    cx_perm_col_six _ hb, nat_digits_recon (2 ^ k) hL idx]

/-- The block window of a width-4 factor list stays inside the register. -/
theorem cx_block_ub (qn k : ℕ) (hk : k + 2 ≤ qn) (idx : ℕ) (hidx : idx < 2 ^ qn) :
    idx / (4 * 2 ^ k) * (4 * 2 ^ k) + 4 * 2 ^ k ≤ 2 ^ qn := by
  have hdiv : idx / (4 * 2 ^ k) < 2 ^ (qn - k - 2) := by
    rw [Nat.div_lt_iff_lt_mul (by positivity)]
    calc idx < 2 ^ qn := hidx
      _ = 2 ^ (qn - k - 2) * (4 * 2 ^ k) := by
          rw [show (4 : ℕ) * 2 ^ k = 2 ^ (k + 2) by
            rw [pow_succ, pow_succ]
            ring, ← pow_add]
          congr 1
          omega
  have h1 : (idx / (4 * 2 ^ k) + 1) * (4 * 2 ^ k) ≤ 2 ^ (qn - k - 2) * (4 * 2 ^ k) :=
    Nat.mul_le_mul_right _ (by omega)
  rw [add_mul, one_mul] at h1
  calc idx / (4 * 2 ^ k) * (4 * 2 ^ k) + 4 * 2 ^ k
      ≤ 2 ^ (qn - k - 2) * (4 * 2 ^ k) := h1
    _ = 2 ^ qn := by
        rw [show (4 : ℕ) * 2 ^ k = 2 ^ (k + 2) by
          rw [pow_succ, pow_succ]
          ring, ← pow_add]
        congr 1
        omega

/-- The CPU kernel on the CX gap-filled factor list is the permutation
`cx_perm`: the block sum has a single surviving column. -/
theorem sequential_prod_fxi_cx (qn k : ℕ) (hk : k + 2 ≤ qn) (fn : ℕ) (c gapn : ℤ)
    (hc : c = 0 ∨ c = 1) (futype : QASM_F_TYPE) (fu_n fuform : ℤ)
    (args : QDEV_F_ARGS_TYPE) (x : ℕ → ℂ) (idx : ℕ) (hidx : idx < 2 ^ qn) :
    sequential_prod_fxi x idx (2 ^ qn)
        ((if k + 2 < qn then [⟨.Q1_I, 2 ^ (qn - k - 2), QDEV_F_ARGS_NULL⟩] else []) ++
          [⟨.Q2_CX, 4, args⟩] ++
          (if 0 < k then [⟨.Q1_I, 2 ^ k, QDEV_F_ARGS_NULL⟩] else []))
        (4 * 2 ^ k) (2 ^ k) fn c gapn futype fu_n fuform =
      x (cx_perm c (2 ^ k) idx) := by
  have hL : 0 < (2 : ℕ) ^ k := Nat.pos_pow_of_pos _ (by norm_num)
  have hub := cx_block_ub qn k hk idx hidx
  have hr : idx % 2 ^ k < 2 ^ k := Nat.mod_lt _ hL
  have hcol4 : cx_perm_col c (idx / 2 ^ k % 4) < 4 :=
    cx_perm_col_lt c _ (Nat.mod_lt _ (by norm_num))
  have hcolL : cx_perm_col c (idx / 2 ^ k % 4) * 2 ^ k ≤ 3 * 2 ^ k :=
    Nat.mul_le_mul_right _ (by omega)
  have hσmod : cx_perm c (2 ^ k) idx % 2 ^ k = idx % 2 ^ k := by
    unfold cx_perm
    rw [nat_digits_mod _ _ _ _ hr]
  have hσdm : cx_perm c (2 ^ k) idx / 2 ^ k % 4 = cx_perm_col c (idx / 2 ^ k % 4) := by
    unfold cx_perm
    rw [nat_digits_div_mod _ _ _ _ hL hcol4 hr]
  have hσd4 : cx_perm c (2 ^ k) idx / (4 * 2 ^ k) = idx / (4 * 2 ^ k) := by
    unfold cx_perm
    rw [nat_digits_div4L _ _ _ _ hcol4 hr]
  have hσlt : cx_perm c (2 ^ k) idx < 2 ^ qn := cx_perm_lt c qn k hk idx hidx
  unfold sequential_prod_fxi
  dsimp only
  rw [min_eq_right (by omega)]
  refine (Finset.sum_eq_single (cx_perm c (2 ^ k) idx) ?_ ?_).trans ?_
  · intro b hb hbne
    have hbmem := Finset.mem_Icc.mp hb
    have hblt : b < 2 ^ qn := by omega
    by_cases hmod : b % 2 ^ k = idx % 2 ^ k
    · rw [if_pos hmod,
        f_dev_qn_exec_cx qn k hk fn c gapn hc futype fu_n fuform args idx b hidx hblt]
      rw [if_neg ?_, mul_zero]
      rintro ⟨h1', h2', h3'⟩
      apply hbne
      calc b = b / (4 * 2 ^ k) * (4 * 2 ^ k) + b / 2 ^ k % 4 * 2 ^ k + b % 2 ^ k :=
            (nat_digits_recon _ hL b).symm
        _ = idx / (4 * 2 ^ k) * (4 * 2 ^ k) +
              cx_perm_col c (idx / 2 ^ k % 4) * 2 ^ k + idx % 2 ^ k := by
            rw [h2', hmod, ← h3']
        _ = cx_perm c (2 ^ k) idx := rfl
    · rw [if_neg hmod]
  · intro hnotmem
    exfalso
    apply hnotmem
    refine Finset.mem_Icc.mpr ⟨?_, ?_⟩
    · conv_rhs =>unfold cx_perm
      omega
    · conv_lhs => unfold cx_perm
      omega
  · rw [if_pos hσmod,
      f_dev_qn_exec_cx qn k hk fn c gapn hc futype fu_n fuform args idx _ hidx hσlt]
    rw [if_pos ⟨hσmod.symm, hσdm, hσd4.symm⟩, mul_one]

/-- A CX core transform with a fitting span and passing capacity checks
succeeds and permutes the device state by `cx_perm`, swapping the
ping-pong buffers and unsetting the sync flag. -/
theorem qSim_qreg_transform_cx (qn fl : ℕ) (hk : fl + 2 ≤ qn)
    (hcap : 4 + 2 ^ fl ≤ 2 ^ qn) (r : qSim_qreg_state) (hq : r.totQubits = qn)
    (crng trng : QREG_F_INDEX_RANGE_TYPE)
    (hc : ctrange_2_form crng trng = 0 ∨ ctrange_2_form crng trng = 1) :
    qSim_qreg_transform r .Q2_CX 4 1 fl crng trng [] .NULL
        QREG_F_INDEX_RANGE_NULL QREG_F_INDEX_RANGE_NULL [] =
      (true,
        { totQubits := r.totQubits,
          devStates_x := fun idx =>
            if idx < 2 ^ qn then
              r.devStates_x (cx_perm (ctrange_2_form crng trng) (2 ^ fl) idx)
            else r.devStates_y idx,
          devStates_y := r.devStates_x,
          states_x := r.states_x,
          syncFlag := false }) := by
  have hN : r.totStates = 2 ^ qn := by
    rw [qSim_qreg_state.totStates, hq]
  have hcheck : qSim_qreg_transform_capacity_check 4 1 fl r.totStates = .ok := by
    unfold qSim_qreg_transform_capacity_check
    rw [hN]
    simp only [pow_one]
    rw [if_neg (by
        push_neg
        linarith [hcap, Nat.zero_le ((2 : ℕ) ^ fl)]),
      if_neg (by
        push_neg
        exact hcap)]
  unfold qSim_qreg_transform
  rw [hcheck]
  simp only [QASM_F_TYPE_IS_GATE_1QUBIT, QASM_F_TYPE_IS_GATE_2QUBIT, Bool.false_eq_true,
    if_false, if_true]
  unfold dev_qreg_apply_function_gate_2qubit
  dsimp only
  rw [hN, f_dev_gap_filling_cx qn fl hk .Q2_CX (fargs_to_dev_ptr_array [])]
  rw [if_neg (by
    push_neg
    split_ifs <;> simp)]
  rw [Prod.mk.injEq]
  refine ⟨rfl, ?_⟩
  rw [qSim_qreg_state.mk.injEq]
  refine ⟨rfl, ?_, rfl, rfl, rfl⟩
  funext idx
  by_cases hidx : idx < 2 ^ qn
  · rw [if_pos hidx, if_pos hidx]
    rw [show (2 : ℕ) ^ (2 * 1 + fl) = 4 * 2 ^ fl by
      rw [show 2 * 1 + fl = fl + 2 by omega, pow_succ, pow_succ]
      ring]
    rw [sequential_prod_fxi_cx qn fl hk 2 (ctrange_2_form crng trng) 0 hc .NULL 1 0
      (fargs_to_dev_ptr_array []) r.devStates_x idx hidx]
  · rw [if_neg hidx, if_neg hidx]

/-- A CX core transform whose LSQ capacity check fails returns `false`
with the register unchanged. -/
theorem qSim_qreg_transform_cx_reject (qn fl : ℕ) (hcap : ¬ (4 + 2 ^ fl ≤ 2 ^ qn))
    (r : qSim_qreg_state) (hq : r.totQubits = qn)
    (crng trng : QREG_F_INDEX_RANGE_TYPE) :
    qSim_qreg_transform r .Q2_CX 4 1 fl crng trng [] .NULL
        QREG_F_INDEX_RANGE_NULL QREG_F_INDEX_RANGE_NULL [] = (false, r) := by
  have hN : r.totStates = 2 ^ qn := by
    rw [qSim_qreg_state.totStates, hq]
  have hch : qSim_qreg_transform_capacity_check 4 1 fl r.totStates ≠ .ok := by
    unfold qSim_qreg_transform_capacity_check
    split_ifs with h1 h2
    · simp
    · simp
    · exact absurd (by
        rw [pow_one, hN] at h2
        exact not_lt.mp h2) hcap
  unfold qSim_qreg_transform
  cases hv : qSim_qreg_transform_capacity_check 4 1 fl r.totStates with
  | ok => exact absurd hv hch
  | rep_error => rfl
  | lsq_error => rfl

/-- One unwrapped CX instruction, applied through
`apply_core_transform_instr`: success, qubit count preserved, and the
device state permuted by `cx_perm`. -/
theorem apply_cx_instr_step (qn fl : ℕ) (hk : fl + 2 ≤ qn)
    (hcap : 4 + 2 ^ fl ≤ 2 ^ qn) (r : qSim_qreg_state) (hq : r.totQubits = qn)
    (crng trng : QREG_F_INDEX_RANGE_TYPE)
    (hc : ctrange_2_form crng trng = 0 ∨ ctrange_2_form crng trng = 1) :
    (apply_core_transform_instr r (mk_core_cx_instr 4 1 fl crng trng)).1 = true ∧
    (apply_core_transform_instr r (mk_core_cx_instr 4 1 fl crng trng)).2.totQubits = qn ∧
    ∀ i, i < 2 ^ qn →
      (apply_core_transform_instr r (mk_core_cx_instr 4 1 fl crng trng)).2.devStates_x i =
        r.devStates_x (cx_perm (ctrange_2_form crng trng) (2 ^ fl) i) := by
  have h := qSim_qreg_transform_cx qn fl hk hcap r hq crng trng hc
  unfold apply_core_transform_instr mk_core_cx_instr
  dsimp only
  rw [h]
  refine ⟨rfl, hq, ?_⟩
  intro i hi
  dsimp only
  rw [if_pos hi]

/-- C9: for every register state and every adjacent qubit pair addressed
by a 1-qubit swap block inside the register (LSQ offset `fl` with
`fl + 2 ≤ qn`), applying the unwrapped swap sequence (controlled-X direct,
inverse, direct) twice in succession returns every device-state
coefficient of the register to exactly its original value.  Either every
CX transform succeeds and the six index permutations compose to the
identity, or (only possible on a 2-qubit register, where the strict LSQ
capacity check rejects the descriptor) every step fails and leaves the
register untouched. -/
theorem C9_swap_twice_identity (qn fl : ℕ) (hk : fl + 2 ≤ qn) (r : qSim_qreg_state)
    (hq : r.totQubits = qn) (idx : ℕ) (hidx : idx < 2 ^ qn) :
    (apply_core_transform_list (apply_core_transform_list r (unwrap_block_swap_q1 1 fl))
        (unwrap_block_swap_q1 1 fl)).devStates_x idx = r.devStates_x idx := by
  have hcd : ctrange_2_form ⟨1, 1⟩ ⟨0, 0⟩ = 0 := by decide
  have hci : ctrange_2_form ⟨0, 0⟩ ⟨1, 1⟩ = 1 := by decide
  by_cases hcap : 4 + 2 ^ fl ≤ 2 ^ qn
  · obtain ⟨ha1, ha2, ha3⟩ :=
      apply_cx_instr_step qn fl hk hcap r hq ⟨1, 1⟩ ⟨0, 0⟩ (Or.inl hcd)
    rw [hcd] at ha3
    set s1 := (apply_core_transform_instr r (mk_core_cx_instr 4 1 fl ⟨1, 1⟩ ⟨0, 0⟩)).2
      with hs1
    obtain ⟨hb1, hb2, hb3⟩ :=
      apply_cx_instr_step qn fl hk hcap s1 ha2 ⟨0, 0⟩ ⟨1, 1⟩ (Or.inr hci)
    rw [hci] at hb3
    set s2 := (apply_core_transform_instr s1 (mk_core_cx_instr 4 1 fl ⟨0, 0⟩ ⟨1, 1⟩)).2
      with hs2
    obtain ⟨hc1, hc2, hc3⟩ :=
      apply_cx_instr_step qn fl hk hcap s2 hb2 ⟨1, 1⟩ ⟨0, 0⟩ (Or.inl hcd)
    rw [hcd] at hc3
    set s3 := (apply_core_transform_instr s2 (mk_core_cx_instr 4 1 fl ⟨1, 1⟩ ⟨0, 0⟩)).2
      with hs3
    obtain ⟨hd1, hd2, hd3⟩ :=
      apply_cx_instr_step qn fl hk hcap s3 hc2 ⟨1, 1⟩ ⟨0, 0⟩ (Or.inl hcd)
    rw [hcd] at hd3
    set s4 := (apply_core_transform_instr s3 (mk_core_cx_instr 4 1 fl ⟨1, 1⟩ ⟨0, 0⟩)).2
      with hs4
    obtain ⟨he1, he2, he3⟩ :=
      apply_cx_instr_step qn fl hk hcap s4 hd2 ⟨0, 0⟩ ⟨1, 1⟩ (Or.inr hci)
    rw [hci] at he3
    set s5 := (apply_core_transform_instr s4 (mk_core_cx_instr 4 1 fl ⟨0, 0⟩ ⟨1, 1⟩)).2
      with hs5
    obtain ⟨hf1, hf2, hf3⟩ :=
      apply_cx_instr_step qn fl hk hcap s5 he2 ⟨1, 1⟩ ⟨0, 0⟩ (Or.inl hcd)
    rw [hcd] at hf3
    simp only [unwrap_block_swap_q1, apply_core_transform_list]
    rw [if_pos ha1, if_pos hb1, if_pos hc1, if_pos hd1, if_pos he1, if_pos hf1]
    rw [hf3 idx hidx,
      he3 _ (cx_perm_lt 0 qn fl hk idx hidx),
      hd3 _ (cx_perm_lt 1 qn fl hk _ (cx_perm_lt 0 qn fl hk idx hidx)),
      hc3 _ (cx_perm_lt 0 qn fl hk _
        (cx_perm_lt 1 qn fl hk _ (cx_perm_lt 0 qn fl hk idx hidx))),
      hb3 _ (cx_perm_lt 0 qn fl hk _ (cx_perm_lt 0 qn fl hk _
        (cx_perm_lt 1 qn fl hk _ (cx_perm_lt 0 qn fl hk idx hidx)))),
      ha3 _ (cx_perm_lt 1 qn fl hk _ (cx_perm_lt 0 qn fl hk _
        (cx_perm_lt 0 qn fl hk _ (cx_perm_lt 1 qn fl hk _
          (cx_perm_lt 0 qn fl hk idx hidx)))))]
    rw [cx_perm_six qn fl hk idx hidx]
  · have hrd : apply_core_transform_instr r (mk_core_cx_instr 4 1 fl ⟨1, 1⟩ ⟨0, 0⟩) =
        (false, r) := by
      unfold apply_core_transform_instr mk_core_cx_instr
      dsimp only
      exact qSim_qreg_transform_cx_reject qn fl hcap r hq ⟨1, 1⟩ ⟨0, 0⟩
    simp only [unwrap_block_swap_q1, apply_core_transform_list, hrd, Bool.false_eq_true,
      if_false]

/-- Witness for C9: the doubled swap sequence at offset 0 on a 3-qubit
register restores the device coefficient at index 1. -/
theorem C9_swap_twice_identity_witness :
    (apply_core_transform_list
        (apply_core_transform_list
          (⟨3, fun i => (i : ℂ), fun _ => 0, fun _ => 0, true⟩ : qSim_qreg_state)
          (unwrap_block_swap_q1 1 0))
        (unwrap_block_swap_q1 1 0)).devStates_x 1 =
      (⟨3, fun i => (i : ℂ), fun _ => 0, fun _ => 0, true⟩ : qSim_qreg_state).devStates_x 1 :=
  C9_swap_twice_identity 3 0 (by decide)
    ⟨3, fun i => (i : ℂ), fun _ => 0, fun _ => 0, true⟩ rfl 1 (by decide)
